import Mathlib

/-!
Verification of the Arya portfolio server against its natural-language
specification.

The development shallowly embeds the relevant JavaScript sources:

* src/admin/admin.js — stableStringify, isDirty, diffContent, saveContent
  (client-side dirty tracking and key-diff patches);
* src/database.js — the versioned site-content store (saveDraftContent,
  publishDraftContent, rollbackToVersion, getContent, setContent,
  ensureContentSeed);
* src/server.js — the login, register, follow and content HTTP handlers,
  and safeCompareSecrets.

Modelling conventions: JSON documents are values of the inductive type Js
(numbers as Int: floating point is out of scope); JavaScript strings are
Lean Strings, with byte sequences modelled through their character
sequences (UTF-8 encoding is injective, so byte-for-byte equality of
encodings coincides with string equality); Mongo documents are records in
a list in insertion order, with a logical clock supplying the
createdAt/updatedAt timestamps that mongoose maintains. Js nests lists,
so its recursive functions are defined by mutual structural recursion
over a mutually inductive presentation (Js, JsList, JsFields), with
conversions to ordinary lists for reasoning.

The module src/src/contentDefaults.js (defaultContent, normalizeContent)
is imported by src/database.js but is not part of the repository
snapshot; it is modelled from the spec where marked.
-/

mutual
/-- A JSON-like JavaScript value: the payloads handled by the content
API. Objects keep their fields in insertion order. -/
inductive Js where
  | null : Js
  | bool : Bool → Js
  | num : Int → Js
  | str : String → Js
  | arr : JsList → Js
  | obj : JsFields → Js
/-- A list of Js values (array elements). -/
inductive JsList where
  | nil : JsList
  | cons : Js → JsList → JsList
/-- The fields of a Js object, in insertion order. -/
inductive JsFields where
  | nil : JsFields
  | cons : String → Js → JsFields → JsFields
end

/-- The elements of a JsList as an ordinary list. -/
def JsList.toList : JsList → List Js
  | .nil => []
  | .cons v t => v :: t.toList

/-- The fields of a JsFields as an ordinary association list. -/
def JsFields.toList : JsFields → List (String × Js)
  | .nil => []
  | .cons k v t => (k, v) :: t.toList

/-- Build a JsList from an ordinary list. -/
def JsList.ofList : List Js → JsList
  | [] => .nil
  | v :: t => .cons v (JsList.ofList t)

/-- Build a JsFields from an ordinary association list. -/
def JsFields.ofList : List (String × Js) → JsFields
  | [] => .nil
  | (k, v) :: t => .cons k v (JsFields.ofList t)

/-- Array literal helper. -/
def Js.arrL (xs : List Js) : Js := .arr (JsList.ofList xs)

/-- Object literal helper. -/
def Js.objL (fs : List (String × Js)) : Js := .obj (JsFields.ofList fs)

mutual
/-- Structural equality test on Js values. -/
def jsBeq : Js → Js → Bool
  | .null, .null => true
  | .bool a, .bool b => a == b
  | .num a, .num b => a == b
  | .str a, .str b => a == b
  | .arr a, .arr b => jsListBeq a b
  | .obj a, .obj b => jsFieldsBeq a b
  | _, _ => false
/-- Structural equality test on JsList. -/
def jsListBeq : JsList → JsList → Bool
  | .nil, .nil => true
  | .cons a as, .cons b bs => jsBeq a b && jsListBeq as bs
  | _, _ => false
/-- Structural equality test on JsFields. -/
def jsFieldsBeq : JsFields → JsFields → Bool
  | .nil, .nil => true
  | .cons k a as, .cons k2 b bs => k == k2 && jsBeq a b && jsFieldsBeq as bs
  | _, _ => false
end

instance : BEq Js := ⟨jsBeq⟩

/-- Key comparison used to model JavaScript's default Array.sort on
strings: lexicographic on code units (Lean chars and JS UTF-16 units
agree on the order for the Basic Multilingual Plane). -/
def keyCharsLe : List Char → List Char → Bool
  | [], _ => true
  | _ :: _, [] => false
  | cA :: restA, cB :: restB =>
    if cA < cB then true
    else if cB < cA then false
    else keyCharsLe restA restB

/-- String comparison for Object.keys(value).sort(). -/
def keyLe (a b : String) : Bool := keyCharsLe a.data b.data

/-- Ordered insert by a string key, used to model Array.sort. -/
def insertByKey {α : Type} (key : α → String) (p : α) : List α → List α
  | [] => [p]
  | q :: qs => if keyLe (key p) (key q) then p :: q :: qs else q :: insertByKey key p qs

/-- Insertion sort by a string key, modelling Object.keys(value).sort().
Keys of a JavaScript object are distinct, so any comparison sort yields
this result. -/
def sortByKey {α : Type} (key : α → String) : List α → List α
  | [] => []
  | p :: ps => insertByKey key p (sortByKey key ps)

/-- JSON.stringify escaping of a single character inside a string literal
(control-character escapes are elided: the repository's content never
relies on them). -/
def escChar (c : Char) : List Char :=
  if c = '"' ∨ c = '\\' then ['\\', c] else [c]

/-- JSON.stringify escaping of a string body. -/
def escChars (cs : List Char) : List Char := cs.flatMap escChar

/-- JSON.stringify of a JavaScript string: a quoted, escaped literal. -/
def jsonQuote (s : String) : List Char := '"' :: escChars s.data ++ ['"']

/-- Decimal digit to character. -/
def digitChar : Nat → Char
  | 0 => '0' | 1 => '1' | 2 => '2' | 3 => '3' | 4 => '4'
  | 5 => '5' | 6 => '6' | 7 => '7' | 8 => '8' | _ => '9'

/-- Decimal digits of n, least significant first (fuelled so that the
kernel can evaluate it; fuel n is always enough). -/
def toDigitsRev : Nat → Nat → List Char
  | 0, _ => []
  | fuel + 1, n => if n = 0 then [] else digitChar (n % 10) :: toDigitsRev fuel (n / 10)

/-- Decimal representation of a natural number, as JSON.stringify prints
integral numbers. -/
def encNat (n : Nat) : List Char :=
  if n = 0 then ['0'] else (toDigitsRev n n).reverse

/-- Decimal representation of an integer. -/
def encInt (i : Int) : List Char :=
  if i < 0 then '-' :: encNat i.natAbs else encNat i.natAbs

/-- .join(',') on already rendered pieces. -/
def joinC : List (List Char) → List Char
  | [] => []
  | [e] => e
  | e :: es => e ++ ',' :: joinC es

mutual
/-- admin.js stableStringify, rendering to characters: null and
primitives go through JSON.stringify; arrays map recursively and join
with commas; objects render their fields sorted by key. Sorting the
rendered (key, text) pairs by key equals iterating
Object.keys(value).sort(), because rendering keeps each key beside its
own field. -/
def stableStringifyChars : Js → List Char
  | .null => "null".data
  | .bool true => "true".data
  | .bool false => "false".data
  | .num i => encInt i
  | .str s => jsonQuote s
  | .arr xs => '[' :: joinC (stableStringifyList xs) ++ [']']
  | .obj fs =>
    '{' :: joinC ((sortByKey Prod.fst (stableStringifyFields fs)).map Prod.snd) ++ ['}']
/-- Rendered elements of an array. -/
def stableStringifyList : JsList → List (List Char)
  | .nil => []
  | .cons v t => stableStringifyChars v :: stableStringifyList t
/-- Fields rendered to (key, rendered entry) pairs. -/
def stableStringifyFields : JsFields → List (String × List Char)
  | .nil => []
  | .cons k v t =>
    (k, jsonQuote k ++ ':' :: stableStringifyChars v) :: stableStringifyFields t
end

/-- admin.js stableStringify: order-insensitive stable stringification. -/
def stableStringify (v : Js) : String := (stableStringifyChars v).asString

/-- admin.js isDirty: the baseline and the current form state differ. -/
def isDirty (baseline current : Js) : Bool :=
  stableStringify baseline != stableStringify current

/-- Property lookup obj[key] on an association list (first binding wins;
JavaScript objects have at most one binding per key). -/
def jlookup (k : String) : List (String × Js) → Option Js
  | [] => none
  | (k2, v) :: fs => if k2 = k then some v else jlookup k fs

/-- Object.keys of a modelled value: fields of an object, nothing for
null and primitives (baseline || {} turns null into {}; index keys of
primitive strings are out of scope for the admin client's documents). -/
def asFields : Js → List (String × Js)
  | .obj fs => fs.toList
  | _ => []

/-- Key set union as built by new Set([...keys(a), ...keys(b)]):
insertion order, first occurrence wins. -/
def unionKeys (bs cs : List (String × Js)) : List String :=
  bs.map Prod.fst ++
    (cs.map Prod.fst).filter (fun k => ¬ (bs.map Prod.fst).contains k)

/-- Stringification of a possibly missing property: a missing property
is JavaScript undefined, which JSON.stringify maps outside the strings
(none), so it never compares equal to the rendering of a present
value. -/
def optStringify (v : Option Js) : Option String := v.map stableStringify

/-- admin.js diffContent: the shallow key-diff patch. A key maps to the
current value, or to none when the key was deleted (currentObj[key] is
undefined there). -/
def diffContent (baseline current : Js) : List (String × Option Js) :=
  let bs := asFields baseline
  let cs := asFields current
  (unionKeys bs cs).filterMap (fun k =>
    if optStringify (jlookup k bs) ≠ optStringify (jlookup k cs) then
      some (k, jlookup k cs)
    else none)

/-- admin.js saveContent, reduced to its data flow: the form state is
read into current (DOM binding abstracted as the argument), the patch is
computed, and either nothing is sent (empty patch: the function alerts
and returns) or exactly the patch is sent as the PATCH /api/content
body. -/
def saveContent (baseline current : Js) : Option (List (String × Option Js)) :=
  let patch := diffContent baseline current
  if patch.isEmpty then none else some patch

example : stableStringify (Js.objL [("b", Js.str "x"), ("a", Js.null)]) =
    "\x7b\"a\":null,\"b\":\"x\"\x7d" := by decide

example : isDirty Js.null (Js.objL []) = true := by decide

example : stableStringify (Js.arrL [Js.num 12, Js.num (-3)]) = "[12,-3]" := by decide

example : (diffContent (Js.objL [("a", Js.str "x")]) (Js.objL [("a", Js.str "y")]) ==
    [("a", some (Js.str "y"))]) = true := by decide

/-! ### JavaScript truthiness and property access -/

/-- JavaScript truthiness of a modelled value (NaN is out of scope). -/
def jsTruthy : Js → Bool
  | .null => false
  | .bool b => b
  | .num i => i != 0
  | .str s => s != ""
  | .arr _ => true
  | .obj _ => true

/-- Property read value[key]. -/
def getField (c : Js) (k : String) : Option Js := jlookup k (asFields c)

/-- Property write on an association list: overwrite in place, or append
a new field. -/
def setFieldList : List (String × Js) → String → Js → List (String × Js)
  | [], k, v => [(k, v)]
  | (k2, w) :: t, k, v =>
    if k2 = k then (k, v) :: t else (k2, w) :: setFieldList t k v

/-- Property write value[key] = v (assignment to a primitive is silently
dropped, as in non-strict JavaScript). -/
def setField (c : Js) (k : String) (v : Js) : Js :=
  match c with
  | .obj fs => Js.objL (setFieldList fs.toList k v)
  | other => other

/-! ### Content defaults and normalizer

src/src/contentDefaults.js is imported by src/database.js but missing
from the repository snapshot, so these two definitions are modelled from
the spec. -/

/-- Modelled from the spec: "Content schema/normalizer: defines default
JSON shape"; a representative default document with the sections the
spec lists (hero, about, …, analytics view counter, site password). -/
def defaultContent : Js := Js.objL
  [ ("hero", Js.objL [("titlePrefix", Js.str "Hi, I'm Arya "), ("subtitle", Js.str "")])
  , ("about", Js.objL [("p1", Js.str ""), ("p2", Js.str "")])
  , ("projects", Js.arrL [])
  , ("skills", Js.arrL [])
  , ("experience", Js.arrL [])
  , ("blog", Js.arrL [])
  , ("contact", Js.objL [("email", Js.str ""), ("socials", Js.arrL [])])
  , ("customSections", Js.arrL [])
  , ("theme", Js.objL [("primary", Js.str "#00f3ff"), ("secondary", Js.str "#bd00ff")])
  , ("analytics", Js.objL [("totalViews", Js.num 0)])
  , ("sitePassword", Js.str "") ]

/-- Keep the document's own fields and fill top-level defaults for the
missing keys. -/
def mergeDefaults (defaults current : List (String × Js)) : List (String × Js) :=
  current ++ defaults.filter (fun p => ¬ (current.map Prod.fst).contains p.1)

/-- Modelled from the spec: "merges legacy shapes into it" — the
normalizer keeps what the document has and completes the default shape
at the top level; non-objects normalize to the default document. -/
def normalizeContent (c : Js) : Js :=
  match c with
  | .obj fs => Js.objL (mergeDefaults (asFields defaultContent) fs.toList)
  | _ => defaultContent

/-! ### The versioned site-content store (src/database.js)

The site_content_versions collection is a list of records in insertion
order; a logical clock supplies the updatedAt timestamps that mongoose's
timestamps option maintains on create, save and updateMany. findOne
without sort takes the first match in natural order; findOne with
sort({updatedAt:-1}) takes the latest match. -/

/-- A site-content record's status. -/
inductive St where
  | draft : St
  | published : St
deriving DecidableEq

/-- One document of site_content_versions. -/
structure SRec where
  rid : Nat
  status : St
  isActive : Bool
  version : Nat
  data : Js
  publishedAt : Option Nat
  updatedAt : Nat

/-- The collection plus id and clock state. -/
structure Store where
  recs : List SRec
  nextId : Nat
  clock : Nat

/-- findOne(query) without sort: first match in natural order. -/
def findFirst (s : Store) (p : SRec → Bool) : Option SRec := (s.recs.filter p).head?

/-- Latest element by updatedAt (first wins on ties). -/
def maxByUpdated (l : List SRec) : Option SRec :=
  l.foldl (fun acc r =>
    match acc with
    | none => some r
    | some a => if a.updatedAt < r.updatedAt then some r else some a) none

/-- getActiveContent(status): findOne({status, isActive:true}) sorted by
updatedAt descending. -/
def getActiveContent (s : Store) (st : St) : Option SRec :=
  maxByUpdated (s.recs.filter (fun r => r.status == st && r.isActive))

/-- getMaxVersion(): findOne sorted by version descending, or 0. -/
def getMaxVersionN (s : Store) : Nat := s.recs.foldl (fun m r => max m r.version) 0

/-- SiteContent.create: append a fresh record stamped with the clock. -/
def createRec (s : Store) (st : St) (act : Bool) (ver : Nat) (d : Js) (pub : Option Nat) :
    Store × SRec :=
  let r : SRec := ⟨s.nextId, st, act, ver, d, pub, s.clock⟩
  ({ recs := s.recs ++ [r], nextId := s.nextId + 1, clock := s.clock + 1 }, r)

/-- updateMany({status:'published', isActive:true}, {$set:{isActive:false}});
mongoose timestamps refresh updatedAt on the touched documents. -/
def deactivatePublished (s : Store) : Store :=
  { s with
    recs := s.recs.map (fun r =>
      if r.status == .published && r.isActive then
        { r with isActive := false, updatedAt := s.clock }
      else r)
    clock := s.clock + 1 }

/-- ensureContentSeed: when no active published and no active draft
record exists, create version 1 of each with the normalized default
content. -/
def ensureContentSeed (s : Store) : Store :=
  match findFirst s (fun r => r.status == .published && r.isActive),
        findFirst s (fun r => r.status == .draft && r.isActive) with
  | none, none =>
    let (s1, _) := createRec s St.published true 1 (normalizeContent defaultContent)
        (some s.clock)
    (createRec s1 St.draft true 1 (normalizeContent defaultContent) none).1
  | _, _ => s

/-- saveDraftContent(content): overwrite the active draft's data with the
normalized content, or create a fresh active draft at maxVersion+1. -/
def saveDraftContent (s : Store) (content : Js) : Store × SRec :=
  let normalized := normalizeContent content
  match findFirst s (fun r => r.status == .draft && r.isActive) with
  | some d =>
    let d2 := { d with data := normalized, updatedAt := s.clock }
    ({ s with
        recs := s.recs.map (fun r => if r.rid = d.rid then d2 else r)
        clock := s.clock + 1 }, d2)
  | none => createRec s St.draft true (getMaxVersionN s + 1) normalized none

/-- Sorted insert by updatedAt descending. -/
def insertByUpdatedDesc (r : SRec) : List SRec → List SRec
  | [] => [r]
  | q :: qs => if q.updatedAt ≤ r.updatedAt then r :: q :: qs else q :: insertByUpdatedDesc r qs

/-- find(...).sort({updatedAt:-1}). -/
def sortByUpdatedDesc : List SRec → List SRec
  | [] => []
  | r :: rs => insertByUpdatedDesc r (sortByUpdatedDesc rs)

/-- The draft.save() step of publishDraftContent: the draft document is
re-stamped with the published version and the normalized data. -/
def restampDraft (s : Store) (draftRid pv : Nat) (nd : Js) : Store :=
  { s with
    recs := s.recs.map (fun r : SRec =>
      if r.rid = draftRid then { r with version := pv, data := nd, updatedAt := s.clock }
      else r)
    clock := s.clock + 1 }

/-- The history-pruning step of publishDraftContent:
find({status:'published'}).sort({updatedAt:-1}).skip(10), then
deleteMany({_id ∈ ids, isActive:false}). -/
def pruneOldPublished (s : Store) : Store :=
  let pruneIds := ((sortByUpdatedDesc
      (s.recs.filter (fun r => r.status == St.published))).drop 10).map (fun r => r.rid)
  { s with recs := s.recs.filter (fun r => !(pruneIds.contains r.rid && !r.isActive)) }

/-- publishDraftContent(): require an active draft; deactivate the
active published records; create the new active published version at
maxVersion+1 with the normalized draft data (a fresh record: the copy is
independent of the draft document); re-stamp the draft with the same
version and normalized data; then delete the inactive published records
beyond the 10 most recently updated. Throwing is modelled as an error
value beside the unchanged store. -/
def publishDraftContent (s : Store) : Store × Except String SRec :=
  match findFirst s (fun r => r.status == .draft && r.isActive) with
  | none => (s, .error "No active draft found")
  | some draft =>
    let s1 := deactivatePublished s
    let pv := getMaxVersionN s1 + 1
    let cr := createRec s1 St.published true pv (normalizeContent draft.data) (some s1.clock)
    (pruneOldPublished (restampDraft cr.1 draft.rid pv (normalizeContent draft.data)), .ok cr.2)

/-- publishFromData(data): deactivate the active published records and
create a new active published version from the given data. -/
def publishFromData (s : Store) (d : Js) : Store × SRec :=
  let s1 := deactivatePublished s
  createRec s1 St.published true (getMaxVersionN s1 + 1) (normalizeContent d) (some s1.clock)

/-- rollbackToVersion(version): find the published record carrying that
version and republish its data; otherwise throw 'Version not found'. -/
def rollbackToVersion (s : Store) (v : Nat) : Store × Except String SRec :=
  match findFirst s (fun r => r.status == .published && r.version == v) with
  | none => (s, .error "Version not found")
  | some target =>
    ((publishFromData s target.data).1, .ok (publishFromData s target.data).2)

/-- getContent(): the active published data, else the normalized default
(published?.data || normalizeContent(defaultContent)). -/
def getContent (s : Store) : Js :=
  match getActiveContent s .published with
  | some r => if jsTruthy r.data then r.data else normalizeContent defaultContent
  | none => normalizeContent defaultContent

/-- setContent(newContent): legacy write, stored as the draft. -/
def setContent (s : Store) (c : Js) : Store × Js :=
  let (s2, r) := saveDraftContent s c
  (s2, r.data)

/-! ### The content HTTP handlers (src/server.js) -/

/-- An HTTP response: status code and JSON body. -/
structure ApiResp where
  status : Nat
  body : Js

/-- {success:false, error:msg}. -/
def jsonFail (msg : String) : Js :=
  Js.objL [("success", Js.bool false), ("error", Js.str msg)]

/-- The default analytics object used when the document has none. -/
def defaultAnalytics : Js := Js.objL [("totalViews", Js.num 0)]

/-- The view-count bump GET /api/content performs for non-admin readers:
analytics = content.analytics || {totalViews:0};
analytics.totalViews = (analytics.totalViews || 0) + 1;
content.analytics = analytics. (The repository keeps totalViews numeric;
a non-numeric truthy totalViews would concatenate in JavaScript and is
out of scope.) -/
def incViews (c : Js) : Js :=
  let analytics :=
    match getField c "analytics" with
    | some a => if jsTruthy a then a else defaultAnalytics
    | none => defaultAnalytics
  let n : Int :=
    match getField analytics "totalViews" with
    | some (.num m) => m
    | _ => 0
  setField c "analytics" (setField analytics "totalViews" (Js.num (n + 1)))

/-- GET /api/content: read the content; 404 on a falsy document; for
non-admin readers bump the view counter, persist the bumped document via
setContent and respond with it; admins get the document untouched. -/
def contentGetHandler (s : Store) (adminCookie : Bool) : ApiResp × Store :=
  let content := getContent s
  if !(jsTruthy content) then
    (⟨404, Js.objL [("error", Js.str "Content not found")]⟩, s)
  else if adminCookie then (⟨200, content⟩, s)
  else
    let content2 := incViews content
    let (s2, _) := setContent s content2
    (⟨200, content2⟩, s2)

/-- POST /api/content (behind requireAuth and requireAdmin): reject a
non-object payload, otherwise store it via setContent. -/
def contentPostHandler (s : Store) (body : Js) : ApiResp × Store :=
  match body with
  | .obj _ =>
    let (s2, _) := setContent s body
    (⟨200, Js.objL [("success", Js.bool true),
        ("message", Js.str "Content updated successfully")]⟩, s2)
  | _ => (⟨400, Js.objL [("error", Js.str "Invalid content payload")]⟩, s)

/-! ### Authentication (src/server.js) -/

/-- crypto.timingSafeEqual on equal-length buffers: equality of the byte
sequences (timing is outside the model). -/
def timingSafeEqual (a b : List Char) : Bool := a == b

/-- server.js safeCompareSecrets: buffers of different length are
compared against padding purely to even out timing and the function
returns false; equal-length buffers go through timingSafeEqual. Byte
buffers are modelled by the character sequences they decode to. -/
def safeCompareSecrets (a b : String) : Bool :=
  if a.data.length ≠ b.data.length then false
  else timingSafeEqual a.data b.data

/-- JavaScript whitespace for String.prototype.trim (the common
characters; exotic Unicode spaces are out of scope). -/
def isJsSpace (c : Char) : Bool :=
  [' ', '\t', '\n', '\r'].contains c

/-- String.prototype.trim. -/
def jsTrim (s : String) : String :=
  (((s.data.dropWhile isJsSpace).reverse.dropWhile isJsSpace).reverse).asString

/-- String.prototype.toLowerCase (ASCII case folding). -/
def jsToLower (s : String) : String := (s.data.map Char.toLower).asString

/-- server.js normalizeEmail: trim and lowercase, empty for a falsy
input. -/
def normalizeEmail (email : String) : String :=
  if email == "" then "" else jsToLower (jsTrim email)

/-- bcrypt, abstracted: hashing tags the password and compare checks the
tag. The claims under verification do not depend on bcrypt internals,
only on compare succeeding exactly for the hashed password. -/
def bcryptHash (password : String) : String := "bcrypt$" ++ password

/-- bcrypt.compare, for the abstracted hash. -/
def bcryptCompare (password hash : String) : Bool := hash == bcryptHash password

/-- A user document (fields involved in login and registration). -/
structure UserRec where
  uid : Nat
  email : String
  password : Option String
  name : String
  isAdmin : Bool
  isVerified : Bool

/-- A login request after body extraction: email, password and masterKey
are the strings the handler computes from the body (trimming included),
type defaults to user. -/
structure LoginReq where
  email : String
  password : String
  type : String
  masterKey : String

/-- A login response: status, JSON body, and the authentication cookies
set by setAuthCookies (none when no cookie is set). -/
structure LoginResp where
  status : Nat
  body : Js
  cookies : Option (List (String × String))

/-- server.js setAuthCookies: the four signed cookies. -/
def setAuthCookies (u : UserRec) : List (String × String) :=
  [ ("user_id", toString u.uid)
  , ("user_name", u.name)
  , ("user_email", u.email)
  , ("admin_auth", if u.isAdmin then "true" else "false") ]

/-- POST /api/login: look the user up by normalized email; reject
unknown, unverified and password-less accounts; for type 'admin'
additionally require the admin flag, a configured ADMIN_MASTER_KEY, and
a non-empty submitted masterKey that passes safeCompareSecrets; then
compare the password with bcrypt and only on success set the
authentication cookies. (The lastLogin bookkeeping and the login alert
email have no bearing on the claims and are not modelled.) -/
def loginHandler (adminMasterKeyEnv : String) (users : List UserRec) (req : LoginReq) :
    LoginResp :=
  let email := normalizeEmail req.email
  let password := jsTrim req.password
  match users.find? (fun u => u.email == email) with
  | none =>
    let message := if req.type == "admin" then "Invalid credentials."
                   else "User not found. Please Sign Up."
    ⟨400, jsonFail message, none⟩
  | some user =>
    if !user.isVerified then
      ⟨403, Js.objL [("success", Js.bool false),
        ("error", Js.str "Email not verified. Please verify first."),
        ("canResend", Js.bool true)], none⟩
    else match user.password with
    | none => ⟨400, jsonFail "Account outdated. Please Register again.", none⟩
    | some hash =>
      let adminGate : Option LoginResp :=
        if req.type == "admin" then
          if !user.isAdmin then some ⟨403, jsonFail "Invalid credentials.", none⟩
          else if adminMasterKeyEnv == "" then
            some ⟨500, jsonFail "Admin login is unavailable.", none⟩
          else if req.masterKey == "" || !(safeCompareSecrets req.masterKey adminMasterKeyEnv)
            then some ⟨403, jsonFail "Invalid credentials.", none⟩
          else none
        else none
      match adminGate with
      | some resp => resp
      | none =>
        if !(bcryptCompare password hash) then
          ⟨400, jsonFail (if req.type == "admin" then "Invalid credentials."
              else "Invalid Password"), none⟩
        else
          ⟨200, Js.objL [("success", Js.bool true),
            ("role", Js.str (if user.isAdmin then "admin" else "user")),
            ("name", Js.str user.name)], some (setAuthCookies user)⟩

/-! ### sanitizeText and registration (src/server.js) -/

/-- Word characters for the on-handler attribute pattern. -/
def isWordCharB (c : Char) : Bool := c.isAlphanum || c == '_'

/-- Case-insensitive literal prefix test (the pattern is given in
lowercase). -/
def prefixCI (pat l : List Char) : Bool :=
  ((l.take pat.length).map Char.toLower) == pat

/-- The suffix right after the first case-insensitive occurrence of the
pattern, if any: the lazy quantifier of the regular expressions matches
up to the first occurrence. -/
def afterFirstCI (pat : List Char) : List Char → Option (List Char)
  | [] => none
  | c :: rest =>
    if prefixCI pat (c :: rest) then some ((c :: rest).drop pat.length)
    else afterFirstCI pat rest

/-- One pass of value.replace(script-tag regex, ''): at each position,
either a lazy script-tag match is removed or the character is kept.
Fuelled by the length of the input. -/
def stripScriptsAux : Nat → List Char → List Char
  | 0, l => l
  | _ + 1, [] => []
  | fuel + 1, c :: rest =>
    if prefixCI "<script".data (c :: rest) then
      match afterFirstCI ['>'] ((c :: rest).drop 7) with
      | some afterGt =>
        match afterFirstCI "</script>".data afterGt with
        | some afterClose => stripScriptsAux fuel afterClose
        | none => c :: stripScriptsAux fuel rest
      | none => c :: stripScriptsAux fuel rest
    else c :: stripScriptsAux fuel rest

/-- value.replace of the script-tag pattern. -/
def stripScripts (l : List Char) : List Char := stripScriptsAux l.length l

/-- A single on\w+=quote[^quote]*quote attribute match at the head of
the input, returning the rest after the match. -/
def matchOnAttr (quote : Char) (l : List Char) : Option (List Char) :=
  match l with
  | o :: n :: rest =>
    if o.toLower == 'o' && n.toLower == 'n' then
      let word := rest.takeWhile isWordCharB
      let rest2 := rest.dropWhile isWordCharB
      if word.isEmpty then none
      else match rest2 with
      | '=' :: q :: rest3 =>
        if q == quote then
          match rest3.dropWhile (fun c => c != quote) with
          | _ :: rest4 => some rest4
          | [] => none
        else none
      | _ => none
    else none
  | _ => none

/-- One pass of value.replace(on-attribute regex, ''), for the given
quote character. -/
def stripAttrsAux (quote : Char) : Nat → List Char → List Char
  | 0, l => l
  | _ + 1, [] => []
  | fuel + 1, c :: rest =>
    match matchOnAttr quote (c :: rest) with
    | some remainder => stripAttrsAux quote fuel remainder
    | none => c :: stripAttrsAux quote fuel rest

/-- value.replace of an on-attribute pattern. -/
def stripAttrs (quote : Char) (l : List Char) : List Char :=
  stripAttrsAux quote l.length l

/-- server.js sanitizeText: empty for falsy input, else remove script
tags, double-quoted on-handlers, single-quoted on-handlers, and trim. -/
def sanitizeText (value : String) : String :=
  if value == "" then ""
  else jsTrim ((stripAttrs '\'' (stripAttrs '"' (stripScripts value.data))).asString)

/-- A register request body. -/
structure RegisterReq where
  name : String
  email : String
  password : String

/-- POST /api/register: sanitize and normalize the fields; reject
missing fields, then an already used email; otherwise hash the password
and create the user. (The verification token and the verification email
have no bearing on the claims and are not modelled; a fresh uid stands
in for the Mongo ObjectId.) -/
def registerHandler (users : List UserRec) (nextUid : Nat) (req : RegisterReq) :
    ApiResp × List UserRec :=
  let name := sanitizeText req.name
  let email := normalizeEmail req.email
  let password := jsTrim req.password
  if name == "" || email == "" || password == "" then
    (⟨400, jsonFail "All fields are required"⟩, users)
  else match users.find? (fun u => u.email == email) with
  | some _ => (⟨400, jsonFail "Email already exists"⟩, users)
  | none =>
    let created : UserRec := ⟨nextUid, email, some (bcryptHash password), name, false, false⟩
    (⟨200, Js.objL [("success", Js.bool true),
        ("message", Js.str "Account created! Please verify your email.")]⟩,
      users ++ [created])

/-! ### The follow system (src/server.js; the unique index on
(followerId, followingId) is declared in the database layer) -/

/-- A user as the follow endpoints see it. -/
structure FUser where
  fid : Nat
  followersCount : Int
  followingCount : Int

/-- Users plus the follows collection (edges in insertion order; the
unique index keeps one copy per pair). -/
structure FollowState where
  users : List FUser
  follows : List (Nat × Nat)

/-- POST /api/follow/:id for the authenticated user selfId: no
self-follow, the target must exist, Follow.create raises E11000 on a
duplicate edge ('Already following'), otherwise the edge is inserted and
both counters are incremented. -/
def followPostHandler (st : FollowState) (selfId targetId : Nat) : ApiResp × FollowState :=
  if selfId == targetId then (⟨400, jsonFail "Cannot follow yourself"⟩, st)
  else match st.users.find? (fun u => u.fid == targetId) with
  | none => (⟨404, jsonFail "User not found"⟩, st)
  | some _ =>
    if st.follows.contains (selfId, targetId) then
      (⟨400, jsonFail "Already following"⟩, st)
    else
      let users2 := st.users.map (fun u =>
        if u.fid == selfId then { u with followingCount := u.followingCount + 1 } else u)
      let users3 := users2.map (fun u =>
        if u.fid == targetId then { u with followersCount := u.followersCount + 1 } else u)
      (⟨200, Js.objL [("success", Js.bool true)]⟩,
        { users := users3, follows := st.follows ++ [(selfId, targetId)] })

/-- deleteOne: remove the first matching edge. -/
def removeFirst : List (Nat × Nat) → Nat × Nat → List (Nat × Nat)
  | [], _ => []
  | e :: t, x => if e == x then t else e :: removeFirst t x

/-- DELETE /api/follow/:id: a request id that fails isValidObjectId
(modelled as none; a valid ObjectId is some tid) is rejected with 400
{success:false, error:'Invalid user id'}; for a valid id delete the
edge if present and, only when one was deleted, decrement both
counters; the response is then success:true either way. -/
def followDeleteHandler (st : FollowState) (selfId : Nat) (targetId : Option Nat) :
    ApiResp × FollowState :=
  match targetId with
  | none => (⟨400, jsonFail "Invalid user id"⟩, st)
  | some tid =>
    if st.follows.contains (selfId, tid) then
      let users2 := st.users.map (fun u =>
        if u.fid == selfId then { u with followingCount := u.followingCount - 1 } else u)
      let users3 := users2.map (fun u =>
        if u.fid == tid then { u with followersCount := u.followersCount - 1 } else u)
      (⟨200, Js.objL [("success", Js.bool true)]⟩,
        { users := users3, follows := removeFirst st.follows (selfId, tid) })
    else (⟨200, Js.objL [("success", Js.bool true)]⟩, st)

/-- The counters of user id in a follow state (0 if absent, matching the
|| 0 fallbacks of the profile endpoint). -/
def countsOf (st : FollowState) (id : Nat) : Int × Int :=
  match st.users.find? (fun u => u.fid == id) with
  | some u => (u.followersCount, u.followingCount)
  | none => (0, 0)

/-! ### Sizes (proof measure for the mutual recursion) -/

mutual
/-- Size of a Js value, for strong induction. -/
def jsSize : Js → Nat
  | .null => 1
  | .bool _ => 1
  | .num _ => 1
  | .str _ => 1
  | .arr xs => 1 + jsListSize xs
  | .obj fs => 1 + jsFieldsSize fs
/-- Size of a JsList. -/
def jsListSize : JsList → Nat
  | .nil => 0
  | .cons v t => 1 + jsSize v + jsListSize t
/-- Size of a JsFields. -/
def jsFieldsSize : JsFields → Nat
  | .nil => 0
  | .cons _ v t => 1 + jsSize v + jsFieldsSize t
end

/-! ### Store predicates and iteration (for the invariant claims) -/

/-- An active record of the given status. -/
def isActiveOf (st : St) (r : SRec) : Bool := r.status == st && r.isActive

/-- Number of active records of the given status. -/
def activeCount (s : Store) (st : St) : Nat := s.recs.countP (isActiveOf st)

/-- The invariant of C2: at most one active draft and at most one active
published record. -/
def AtMostOneActive (s : Store) : Prop :=
  activeCount s St.draft ≤ 1 ∧ activeCount s St.published ≤ 1

/-- Well-formedness the database guarantees: distinct document ids,
fresh ids below the id counter, and timestamps below the clock. -/
def StoreWF (s : Store) : Prop :=
  (s.recs.map (fun r => r.rid)).Nodup ∧
  (∀ r ∈ s.recs, r.rid < s.nextId) ∧
  (∀ r ∈ s.recs, r.updatedAt < s.clock)

/-- All stored data has been through the normalizer (every write path
normalizes). -/
def NormalizedData (s : Store) : Prop := ∀ r ∈ s.recs, normalizeContent r.data = r.data

/-- Reachable-state invariant for the content store. -/
def StoreInv (s : Store) : Prop := StoreWF s ∧ AtMostOneActive s ∧ NormalizedData s

/-- k+1 successive non-admin GET /api/content requests; the result is
the last response and state. -/
def contentGetIter : Nat → Store → ApiResp × Store
  | 0, s => contentGetHandler s false
  | k + 1, s => contentGetIter k (contentGetHandler s false).2

/-! ## Theorems -/

theorem jsListToList_ofList (l : List Js) : (JsList.ofList l).toList = l := by
  induction l with
  | nil => rfl
  | cons v t ih => simp [JsList.ofList, JsList.toList, ih]

theorem jsFieldsToList_ofList (l : List (String × Js)) : (JsFields.ofList l).toList = l := by
  induction l with
  | nil => rfl
  | cons v t ih => simp [JsFields.ofList, JsFields.toList, ih]

theorem asFields_objL (fs : List (String × Js)) : asFields (Js.objL fs) = fs := by
  simp [asFields, Js.objL, jsFieldsToList_ofList]

theorem jsBeq_correct (n : Nat) :
    (∀ a b : Js, jsSize a ≤ n → (jsBeq a b = true ↔ a = b)) ∧
    (∀ as bs : JsList, jsListSize as ≤ n → (jsListBeq as bs = true ↔ as = bs)) ∧
    (∀ as bs : JsFields, jsFieldsSize as ≤ n → (jsFieldsBeq as bs = true ↔ as = bs)) := by
  induction n using Nat.strong_induction_on with
  | _ n ih =>
    refine ⟨?_, ?_, ?_⟩
    · intro a b hs
      cases a with
      | null => cases b <;> simp [jsBeq]
      | bool x => cases b <;> simp [jsBeq]
      | num x => cases b <;> simp [jsBeq]
      | str x => cases b <;> simp [jsBeq]
      | arr x =>
        have hs2 : 1 + jsListSize x ≤ n := by simpa [jsSize] using hs
        cases b <;> simp [jsBeq]
        exact (ih (jsListSize x) (by omega)).2.1 x _ le_rfl
      | obj x =>
        have hs2 : 1 + jsFieldsSize x ≤ n := by simpa [jsSize] using hs
        cases b <;> simp [jsBeq]
        exact (ih (jsFieldsSize x) (by omega)).2.2 x _ le_rfl
    · intro as bs hs
      cases as with
      | nil => cases bs <;> simp [jsListBeq]
      | cons v t =>
        cases bs with
        | nil => simp [jsListBeq]
        | cons v2 t2 =>
          have hs2 : 1 + jsSize v + jsListSize t ≤ n := by simpa [jsListSize] using hs
          have hv1 : 1 ≤ jsSize v := by cases v <;> simp [jsSize]
          have h1 := (ih (jsSize v) (by omega)).1 v v2 le_rfl
          have h2 := (ih (jsListSize t) (by omega)).2.1 t t2 le_rfl
          simp [jsListBeq, h1, h2]
    · intro as bs hs
      cases as with
      | nil => cases bs <;> simp [jsFieldsBeq]
      | cons k v t =>
        cases bs with
        | nil => simp [jsFieldsBeq]
        | cons k2 v2 t2 =>
          have hs2 : 1 + jsSize v + jsFieldsSize t ≤ n := by simpa [jsFieldsSize] using hs
          have hv1 : 1 ≤ jsSize v := by cases v <;> simp [jsSize]
          have h1 := (ih (jsSize v) (by omega)).1 v v2 le_rfl
          have h2 := (ih (jsFieldsSize t) (by omega)).2.2 t t2 le_rfl
          simp [jsFieldsBeq, h1, h2, and_assoc]

theorem jsBeq_iff (a b : Js) : jsBeq a b = true ↔ a = b :=
  (jsBeq_correct (jsSize a)).1 a b le_rfl

instance : DecidableEq Js := fun a b => decidable_of_iff (jsBeq a b = true) (jsBeq_iff a b)

/-! ### C7: follow / unfollow -/

theorem find?_fid_map (f : FUser → FUser) (hf : ∀ u, (f u).fid = u.fid)
    (l : List FUser) (x : Nat) :
    (l.map f).find? (fun u => u.fid == x) = (l.find? (fun u => u.fid == x)).map f := by
  induction l with
  | nil => rfl
  | cons u t ih =>
    simp only [List.map_cons, List.find?]
    rw [hf u]
    cases hb : (u.fid == x) with
    | false => simpa [hb] using ih
    | true => simp [hb]

theorem removeFirst_append_notmem (e : Nat × Nat) :
    ∀ l : List (Nat × Nat), e ∉ l → removeFirst (l ++ [e]) e = l := by
  intro l
  induction l with
  | nil => intro _; simp [removeFirst]
  | cons f t ih =>
    intro h
    have hf : (f == e) = false := by
      have : f ≠ e := fun hc => h (by simp [hc])
      simpa using this
    simp [removeFirst, hf]
    exact ih (fun hc => h (by simp [hc]))

theorem follow_inc_dec_cancel (a b : Nat) (hab : a ≠ b) (u : FUser) :
    (fun u : FUser =>
        if u.fid == b then { u with followersCount := u.followersCount - 1 } else u)
      ((fun u : FUser =>
        if u.fid == a then { u with followingCount := u.followingCount - 1 } else u)
      ((fun u : FUser =>
        if u.fid == b then { u with followersCount := u.followersCount + 1 } else u)
      ((fun u : FUser =>
        if u.fid == a then { u with followingCount := u.followingCount + 1 } else u) u)))
    = u := by
  by_cases h1 : u.fid = a
  · have e1 : (u.fid == a) = true := by simp [h1]
    have e2 : (u.fid == b) = false := by
      simp only [h1]; simpa using hab
    cases u with
    | mk fid fers fing => simp_all
  · have e1 : (u.fid == a) = false := by simpa using h1
    by_cases h2 : u.fid = b
    · have e2 : (u.fid == b) = true := by simp [h2]
      cases u with
      | mk fid fers fing => simp_all
    · have e2 : (u.fid == b) = false := by simpa using h2
      cases u with
      | mk fid fers fing => simp_all

/-- C7: for an authenticated user a and a distinct existing user b, a
successful follow creates the unique edge and bumps a's followingCount
and b's followersCount by one; the following unfollow removes the edge
and restores the whole state; a repeated follow answers 'Already
following' and changes nothing; an unfollow without an edge changes
nothing. -/
theorem c7_follow_unfollow_counts
    (st : FollowState) (a b : Nat) (uA uB : FUser)
    (hab : a ≠ b)
    (hA : st.users.find? (fun u => u.fid == a) = some uA)
    (hB : st.users.find? (fun u => u.fid == b) = some uB) :
    (((a, b) ∉ st.follows) →
      (followPostHandler st a b).1.status = 200 ∧
      (followPostHandler st a b).2.follows = st.follows ++ [(a, b)] ∧
      (followPostHandler st a b).2.follows.count (a, b) = 1 ∧
      countsOf (followPostHandler st a b).2 a
        = ((countsOf st a).1, (countsOf st a).2 + 1) ∧
      countsOf (followPostHandler st a b).2 b
        = ((countsOf st b).1 + 1, (countsOf st b).2) ∧
      followDeleteHandler (followPostHandler st a b).2 a (some b)
        = (⟨200, Js.objL [("success", Js.bool true)]⟩, st)) ∧
    (((a, b) ∈ st.follows) →
      followPostHandler st a b = (⟨400, jsonFail "Already following"⟩, st)) ∧
    (((a, b) ∉ st.follows) →
      followDeleteHandler st a (some b)
        = (⟨200, Js.objL [("success", Js.bool true)]⟩, st)) := by
  have hab2 : (a == b) = false := by simpa using hab
  have hfidA : uA.fid = a := by simpa using List.find?_some hA
  have hfidB : uB.fid = b := by simpa using List.find?_some hB
  have hprA : ∀ u : FUser,
      ((fun u : FUser =>
        if u.fid == a then { u with followingCount := u.followingCount + 1 } else u) u).fid
      = u.fid := by
    intro u; by_cases h : u.fid = a <;> simp [h]
  have hprB : ∀ u : FUser,
      ((fun u : FUser =>
        if u.fid == b then { u with followersCount := u.followersCount + 1 } else u) u).fid
      = u.fid := by
    intro u; by_cases h : u.fid = b <;> simp [h]
  refine ⟨?_, ?_, ?_⟩
  · intro hedge
    have hcont : st.follows.contains (a, b) = false := by
      show List.elem (a, b) st.follows = false
      rw [List.elem_eq_mem]; exact decide_eq_false hedge
    have hpost : followPostHandler st a b =
        (⟨200, Js.objL [("success", Js.bool true)]⟩,
          { users := (st.users.map (fun u =>
              if u.fid == a then { u with followingCount := u.followingCount + 1 } else u)).map
                (fun u =>
              if u.fid == b then { u with followersCount := u.followersCount + 1 } else u),
            follows := st.follows ++ [(a, b)] }) := by
      rw [followPostHandler]
      simp [hab2, hB, hcont, hedge]
    have hfindA2 := find?_fid_map _ hprA st.users a
    have hfindB2 := find?_fid_map _ hprB st.users b
    have hvalA : ((fun u : FUser =>
          if u.fid == b then { u with followersCount := u.followersCount + 1 } else u)
        ((fun u : FUser =>
          if u.fid == a then { u with followingCount := u.followingCount + 1 } else u) uA))
        = { uA with followingCount := uA.followingCount + 1 } := by
      have e1 : (uA.fid == a) = true := by simp [hfidA]
      have e2 : (uA.fid == b) = false := by simp only [hfidA]; simpa using hab
      simp [e1, e2]
    have hvalB : ((fun u : FUser =>
          if u.fid == b then { u with followersCount := u.followersCount + 1 } else u)
        ((fun u : FUser =>
          if u.fid == a then { u with followingCount := u.followingCount + 1 } else u) uB))
        = { uB with followersCount := uB.followersCount + 1 } := by
      have e1 : (uB.fid == a) = false := by
        simp only [hfidB]; simpa using fun hc => hab hc.symm
      have e2 : (uB.fid == b) = true := by simp [hfidB]
      simp [e1, e2]
    refine ⟨by rw [hpost], by rw [hpost], ?_, ?_, ?_, ?_⟩
    · rw [hpost]
      have h0 : st.follows.count (a, b) = 0 := List.count_eq_zero.mpr hedge
      simp [List.count_append, h0]
    · rw [hpost]
      simp only [countsOf, find?_fid_map _ hprB, find?_fid_map _ hprA, hA,
        Option.map_some', hvalA]
    · rw [hpost]
      simp only [countsOf, find?_fid_map _ hprB, find?_fid_map _ hprA, hB,
        Option.map_some', hvalB]
    · rw [hpost]
      have hcont2 : (st.follows ++ [(a, b)]).contains (a, b) = true := by
        show List.elem (a, b) (st.follows ++ [(a, b)]) = true
        rw [List.elem_eq_mem]; exact decide_eq_true (by simp)
      rw [followDeleteHandler]
      simp only [hcont2, if_true]
      have husers : ∀ l : List FUser,
          ((((l.map (fun u : FUser =>
              if u.fid == a then { u with followingCount := u.followingCount + 1 } else u)).map
              (fun u : FUser =>
              if u.fid == b then { u with followersCount := u.followersCount + 1 } else u)).map
              (fun u : FUser =>
              if u.fid == a then { u with followingCount := u.followingCount - 1 } else u)).map
              (fun u : FUser =>
              if u.fid == b then { u with followersCount := u.followersCount - 1 } else u))
            = l := by
        intro l
        simp only [List.map_map]
        have : ∀ u : FUser,
            ((fun u : FUser =>
              if u.fid == b then { u with followersCount := u.followersCount - 1 } else u) ∘
             (fun u : FUser =>
              if u.fid == a then { u with followingCount := u.followingCount - 1 } else u) ∘
             (fun u : FUser =>
              if u.fid == b then { u with followersCount := u.followersCount + 1 } else u) ∘
             (fun u : FUser =>
              if u.fid == a then { u with followingCount := u.followingCount + 1 } else u)) u
            = u := fun u => follow_inc_dec_cancel a b hab u
        calc l.map _ = l.map id := List.map_congr_left (fun u _ => this u)
        _ = l := List.map_id l
      rw [husers st.users, removeFirst_append_notmem _ _ hedge]
  · intro hedge
    have hcont : st.follows.contains (a, b) = true := by
      show List.elem (a, b) st.follows = true
      rw [List.elem_eq_mem]; exact decide_eq_true hedge
    rw [followPostHandler]
    simp [hab2, hB, hcont, hedge]
  · intro hedge
    have hcont : st.follows.contains (a, b) = false := by
      show List.elem (a, b) st.follows = false
      rw [List.elem_eq_mem]; exact decide_eq_false hedge
    rw [followDeleteHandler]
    simp [hcont, hedge]

/-- Witness for C7 at a concrete two-user state. -/
theorem c7_follow_unfollow_counts_witness :
    (1 : Nat) ≠ 2 ∧
    countsOf (followPostHandler ⟨[⟨1, 0, 0⟩, ⟨2, 5, 7⟩], []⟩ 1 2).2 2 = (6, 7) := by
  have h := c7_follow_unfollow_counts ⟨[⟨1, 0, 0⟩, ⟨2, 5, 7⟩], []⟩ 1 2 ⟨1, 0, 0⟩ ⟨2, 5, 7⟩
    (by decide) rfl rfl
  refine ⟨by decide, ?_⟩
  have h2 := ((h.1 (by decide)).2.2.2.2).1
  rw [h2]
  decide

/-! ### C1: admin login and the master key -/

theorem safeCompareSecrets_iff (a b : String) : safeCompareSecrets a b = true ↔ a = b := by
  by_cases h : a.data.length = b.data.length
  · have heq : safeCompareSecrets a b = (a.data == b.data) := by
      rw [safeCompareSecrets, if_neg (by simp [h]), timingSafeEqual]
    rw [heq]
    constructor
    · intro hc; exact String.ext_iff.mpr (by simpa using hc)
    · intro hc; simp [hc]
  · have heq : safeCompareSecrets a b = false := by
      rw [safeCompareSecrets, if_pos h]
    rw [heq]
    simp only [Bool.false_eq_true, false_iff]
    intro hc
    exact h (by rw [hc])

theorem getField_jsonFail_success (msg : String) :
    getField (jsonFail msg) "success" = some (Js.bool false) := rfl

/-- C1: on an admin login for an existing verified admin user with a
configured non-empty ADMIN_MASTER_KEY, the handler authenticates (sets
cookies or answers success:true) only if the submitted masterKey passes
safeCompareSecrets against the environment key; an empty or different
masterKey yields success:false and no cookies; and safeCompareSecrets
returns true exactly on byte-for-byte equal secrets. -/
theorem c1_admin_login_master_key (env : String) (users : List UserRec)
    (req : LoginReq) (u : UserRec)
    (htype : req.type = "admin")
    (henv : env ≠ "")
    (hfind : users.find? (fun x => x.email == normalizeEmail req.email) = some u)
    (hverified : u.isVerified = true)
    (hadmin : u.isAdmin = true) :
    ((loginHandler env users req).cookies ≠ none →
      safeCompareSecrets req.masterKey env = true) ∧
    (getField (loginHandler env users req).body "success" = some (Js.bool true) →
      safeCompareSecrets req.masterKey env = true) ∧
    ((req.masterKey = "" ∨ req.masterKey ≠ env) →
      getField (loginHandler env users req).body "success" = some (Js.bool false) ∧
      (loginHandler env users req).cookies = none) ∧
    (∀ a b : String, safeCompareSecrets a b = true ↔ a = b) := by
  have htype2 : (req.type == "admin") = true := by simp [htype]
  have henv2 : (env == "") = false := by simpa using henv
  have hadmin2 : (!u.isAdmin) = false := by simp [hadmin]
  have hver2 : (!u.isVerified) = false := by simp [hverified]
  cases hpw : u.password with
  | none =>
    have hresp : loginHandler env users req =
        ⟨400, jsonFail "Account outdated. Please Register again.", none⟩ := by
      rw [loginHandler, hfind]
      simp [hver2, hpw]
    rw [hresp]
    exact ⟨by simp, by simp [getField_jsonFail_success], fun _ =>
      ⟨getField_jsonFail_success _, rfl⟩, safeCompareSecrets_iff⟩
  | some hash =>
    by_cases hmk : req.masterKey = "" ∨ ¬ safeCompareSecrets req.masterKey env = true
    · have hmk2 : (req.masterKey == "" || !safeCompareSecrets req.masterKey env) = true := by
        rcases hmk with h | h
        · simp [h]
        · simp [Bool.eq_false_iff.mpr h]
      have hresp : loginHandler env users req =
          ⟨403, jsonFail "Invalid credentials.", none⟩ := by
        rw [loginHandler, hfind]
        simp [hver2, hpw, htype2, hadmin2, henv2, hmk2]
      rw [hresp]
      refine ⟨by simp, ?_, fun _ => ⟨getField_jsonFail_success _, rfl⟩, safeCompareSecrets_iff⟩
      intro hc
      rw [getField_jsonFail_success] at hc
      simp at hc
    · push_neg at hmk
      have hcmp : safeCompareSecrets req.masterKey env = true := hmk.2
      refine ⟨fun _ => hcmp, fun _ => hcmp, ?_, safeCompareSecrets_iff⟩
      intro hbad
      rcases hbad with h | h
      · exact absurd h hmk.1
      · exact absurd ((safeCompareSecrets_iff _ _).mp hcmp) h

/-- Witness for C1: a concrete store and request; a wrong master key is
rejected with no cookies. -/
theorem c1_admin_login_master_key_witness :
    ("secret-key" : String) ≠ "" ∧
    getField (loginHandler "secret-key"
        [⟨1, "admin@x.com", some "h", "Root", true, true⟩]
        ⟨"admin@x.com", "pw", "admin", "wrong"⟩).body "success" = some (Js.bool false) := by
  have h := c1_admin_login_master_key "secret-key"
    [⟨1, "admin@x.com", some "h", "Root", true, true⟩]
    ⟨"admin@x.com", "pw", "admin", "wrong"⟩
    ⟨1, "admin@x.com", some "h", "Root", true, true⟩
    rfl (by decide) rfl rfl rfl
  exact ⟨by decide, (h.2.2.1 (Or.inr (by decide))).1⟩

/-! ### C6: registration and duplicate emails -/

/-- C6 counterexample: a register request whose normalized email belongs
to an existing user but whose name is empty is answered with 'All fields
are required', not 'Email already exists'. -/
theorem c6_register_duplicate_email_counterexample :
    ([⟨1, "a@b.com", some "h", "Alice", false, true⟩] :
        List UserRec).find? (fun x => x.email ==
          normalizeEmail (RegisterReq.mk "" "a@b.com" "secret123").email)
      = some ⟨1, "a@b.com", some "h", "Alice", false, true⟩ ∧
    (registerHandler [⟨1, "a@b.com", some "h", "Alice", false, true⟩] 2
        ⟨"", "a@b.com", "secret123"⟩).1.body = jsonFail "All fields are required" ∧
    (registerHandler [⟨1, "a@b.com", some "h", "Alice", false, true⟩] 2
        ⟨"", "a@b.com", "secret123"⟩).1.body ≠ jsonFail "Email already exists" := by
  refine ⟨rfl, rfl, ?_⟩
  intro hc
  have : (jsonFail "All fields are required" == jsonFail "Email already exists") = true := by
    rw [show (jsonFail "All fields are required" == jsonFail "Email already exists")
        = jsBeq (jsonFail "All fields are required") (jsonFail "Email already exists")
        from rfl]
    rw [jsBeq_iff]
    exact hc
  simp at this
  exact absurd ((jsBeq_iff _ _).mp (by exact this)) (by decide)

/-- C6 amended: a register request with a non-empty sanitized name,
non-empty trimmed password and non-empty normalized email that equals an
existing user's email is rejected with 400 {success:false, error:'Email
already exists'} and the user collection is unchanged. -/
theorem c6_register_duplicate_email (users : List UserRec) (nextUid : Nat)
    (req : RegisterReq) (u : UserRec)
    (hname : sanitizeText req.name ≠ "")
    (hpass : jsTrim req.password ≠ "")
    (hemail : normalizeEmail req.email ≠ "")
    (hdup : users.find? (fun x => x.email == normalizeEmail req.email) = some u) :
    registerHandler users nextUid req = (⟨400, jsonFail "Email already exists"⟩, users) := by
  have h1 : (sanitizeText req.name == "") = false := by simpa using hname
  have h2 : (jsTrim req.password == "") = false := by simpa using hpass
  have h3 : (normalizeEmail req.email == "") = false := by simpa using hemail
  rw [registerHandler]
  simp [h1, h2, h3, hdup]

/-- Witness for C6 at a concrete user list and request. -/
theorem c6_register_duplicate_email_witness :
    sanitizeText "Bob" ≠ "" ∧
    registerHandler [⟨1, "a@b.com", some "h", "Alice", false, true⟩] 2
        ⟨"Bob", "a@b.com", "pw12345"⟩
      = (⟨400, jsonFail "Email already exists"⟩,
          [⟨1, "a@b.com", some "h", "Alice", false, true⟩]) := by
  refine ⟨by decide, ?_⟩
  exact c6_register_duplicate_email _ 2 ⟨"Bob", "a@b.com", "pw12345"⟩
    ⟨1, "a@b.com", some "h", "Alice", false, true⟩
    (by decide) (by decide) (by decide) rfl

/-! ### Store basics -/

theorem findFirst_none_iff (s : Store) (p : SRec → Bool) :
    findFirst s p = none ↔ ∀ r ∈ s.recs, ¬ p r = true := by
  rw [findFirst, List.head?_eq_none_iff, List.filter_eq_nil_iff]

theorem findFirst_eq_find? (s : Store) (p : SRec → Bool) :
    findFirst s p = s.recs.find? p := by
  rw [findFirst]
  exact List.filter_head? p s.recs

theorem findFirst_mem (s : Store) (p : SRec → Bool) (r : SRec)
    (h : findFirst s p = some r) : r ∈ s.recs ∧ p r = true := by
  rw [findFirst_eq_find?] at h
  exact ⟨List.mem_of_find?_eq_some h, List.find?_some h⟩

theorem countP_map_pointwise (p : SRec → Bool) (f : SRec → SRec) (l : List SRec)
    (h : ∀ x ∈ l, p (f x) = p x) : (l.map f).countP p = l.countP p := by
  rw [List.countP_map]
  exact List.countP_congr (fun x hx => by simp [Function.comp, h x hx])

theorem deactivate_draft_count (s : Store) :
    activeCount (deactivatePublished s) St.draft = activeCount s St.draft := by
  rw [activeCount, activeCount, deactivatePublished]
  refine countP_map_pointwise _ _ _ ?_
  intro r _
  by_cases h : (r.status == St.published && r.isActive) = true
  · obtain ⟨h1, h2⟩ : r.status = St.published ∧ r.isActive = true := by simpa using h
    rw [if_pos h]
    simp [isActiveOf, h1]
  · rw [if_neg h]

theorem deactivate_pub_count (s : Store) :
    activeCount (deactivatePublished s) St.published = 0 := by
  rw [activeCount, deactivatePublished]
  simp only [List.countP_eq_zero]
  intro x hx
  rcases List.mem_map.mp hx with ⟨r, _, rfl⟩
  by_cases h : (r.status == St.published && r.isActive) = true
  · intro hc
    rw [if_pos h] at hc
    simp [isActiveOf] at hc
  · intro hc
    rw [if_neg h] at hc
    exact h hc

theorem createRec_count (s : Store) (st : St) (act : Bool) (v : Nat) (d : Js)
    (p : Option Nat) (st2 : St) :
    activeCount (createRec s st act v d p).1 st2
      = activeCount s st2
        + (if isActiveOf st2 ⟨s.nextId, st, act, v, d, p, s.clock⟩ then 1 else 0) := by
  rw [activeCount, createRec]
  simp [List.countP_append, activeCount, List.countP_cons]

theorem restampDraft_count (s : Store) (draftRid pv : Nat) (nd : Js) (st : St) :
    activeCount (restampDraft s draftRid pv nd) st = activeCount s st := by
  rw [activeCount, activeCount, restampDraft]
  refine countP_map_pointwise _ _ _ ?_
  intro r _
  by_cases h : r.rid = draftRid
  · simp [isActiveOf, h]
  · simp [h]

theorem pruneOldPublished_count_le (s : Store) (st : St) :
    activeCount (pruneOldPublished s) st ≤ activeCount s st := by
  rw [activeCount, activeCount, pruneOldPublished]
  exact List.Sublist.countP_le _ (List.filter_sublist _)

/-- C2: ensureContentSeed, saveDraftContent, publishDraftContent and
rollbackToVersion preserve the invariant that at most one draft record
and at most one published record are active (given the database's own
guarantee of distinct document ids). -/
theorem c2_at_most_one_active (s : Store) (c : Js) (v : Nat)
    (hids : (s.recs.map (fun r => r.rid)).Nodup)
    (h : AtMostOneActive s) :
    AtMostOneActive (ensureContentSeed s) ∧
    AtMostOneActive (saveDraftContent s c).1 ∧
    AtMostOneActive (publishDraftContent s).1 ∧
    AtMostOneActive (rollbackToVersion s v).1 := by
  obtain ⟨hd, hp⟩ := h
  refine ⟨?_, ?_, ?_, ?_⟩
  · rw [ensureContentSeed]
    cases hfp : findFirst s (fun r => r.status == St.published && r.isActive) with
    | some r => exact ⟨hd, hp⟩
    | none =>
      cases hfd : findFirst s (fun r => r.status == St.draft && r.isActive) with
      | some r => exact ⟨hd, hp⟩
      | none =>
        have hp0 : activeCount s St.published = 0 := by
          rw [activeCount, List.countP_eq_zero]
          exact (findFirst_none_iff s _).mp hfp
        have hd0 : activeCount s St.draft = 0 := by
          rw [activeCount, List.countP_eq_zero]
          exact (findFirst_none_iff s _).mp hfd
        constructor
        · rw [createRec_count, createRec_count, hd0]
          simp [isActiveOf, show (St.published == St.draft) = false from rfl,
            show (St.draft == St.draft) = true from rfl]
        · rw [createRec_count, createRec_count, hp0]
          simp [isActiveOf, show (St.draft == St.published) = false from rfl,
            show (St.published == St.published) = true from rfl]
  · cases hfd : findFirst s (fun r => r.status == St.draft && r.isActive) with
    | some d =>
      obtain ⟨hdm, hdp⟩ := findFirst_mem s _ d hfd
      have heq : (saveDraftContent s c).1 =
          { s with
            recs := s.recs.map (fun r => if r.rid = d.rid then
              { d with data := normalizeContent c, updatedAt := s.clock } else r)
            clock := s.clock + 1 } := by
        rw [saveDraftContent, hfd]
      rw [heq]
      have hcnt : ∀ st : St,
          ({ s with
            recs := s.recs.map (fun r => if r.rid = d.rid then
              { d with data := normalizeContent c, updatedAt := s.clock } else r)
            clock := s.clock + 1 } : Store).recs.countP (isActiveOf st)
          = activeCount s st := by
        intro st
        refine countP_map_pointwise _ _ _ ?_
        intro r hr
        by_cases hrid : r.rid = d.rid
        · have : r = d :=
            List.inj_on_of_nodup_map hids hr hdm hrid
          subst this
          simp [isActiveOf, hrid]
        · simp [hrid]
      exact ⟨le_trans (le_of_eq (hcnt St.draft)) hd, le_trans (le_of_eq (hcnt St.published)) hp⟩
    | none =>
      have heq : (saveDraftContent s c).1 =
          (createRec s St.draft true (getMaxVersionN s + 1) (normalizeContent c) none).1 := by
        rw [saveDraftContent, hfd]
      have hd0 : activeCount s St.draft = 0 := by
        rw [activeCount, List.countP_eq_zero]
        exact (findFirst_none_iff s _).mp hfd
      rw [heq]
      constructor
      · rw [createRec_count, hd0]
        split <;> omega
      · rw [createRec_count]
        simp only [show isActiveOf St.published
            ⟨s.nextId, St.draft, true, getMaxVersionN s + 1, normalizeContent c, none,
              s.clock⟩ = false from rfl]
        simpa using hp
  · cases hfd : findFirst s (fun r => r.status == St.draft && r.isActive) with
    | none =>
      have heq : publishDraftContent s = (s, .error "No active draft found") := by
        rw [publishDraftContent, hfd]
      rw [heq]
      exact ⟨hd, hp⟩
    | some draft =>
      have heq : (publishDraftContent s).1 =
          pruneOldPublished (restampDraft
            (createRec (deactivatePublished s) St.published true
              (getMaxVersionN (deactivatePublished s) + 1)
              (normalizeContent draft.data) (some (deactivatePublished s).clock)).1
            draft.rid (getMaxVersionN (deactivatePublished s) + 1)
            (normalizeContent draft.data)) := by
        rw [publishDraftContent, hfd]
      rw [heq]
      constructor
      · refine le_trans (pruneOldPublished_count_le _ _) ?_
        rw [restampDraft_count, createRec_count, deactivate_draft_count]
        simp only [isActiveOf, show (St.published == St.draft) = false from rfl,
          Bool.false_and, if_neg]
        simpa using hd
      · refine le_trans (pruneOldPublished_count_le _ _) ?_
        rw [restampDraft_count, createRec_count, deactivate_pub_count]
        simp [isActiveOf, show (St.published == St.published) = true from rfl]
  · cases hft : findFirst s (fun r => r.status == St.published && r.version == v) with
    | none =>
      have heq : rollbackToVersion s v = (s, .error "Version not found") := by
        rw [rollbackToVersion, hft]
      rw [heq]
      exact ⟨hd, hp⟩
    | some target =>
      have heq : (rollbackToVersion s v).1 = (publishFromData s target.data).1 := by
        rw [rollbackToVersion, hft]
      rw [heq, publishFromData]
      constructor
      · rw [createRec_count, deactivate_draft_count]
        simp only [isActiveOf, show (St.published == St.draft) = false from rfl,
          Bool.false_and, if_neg]
        simpa using hd
      · rw [createRec_count, deactivate_pub_count]
        simp [isActiveOf, show (St.published == St.published) = true from rfl]

/-- Witness for C2 at the freshly seeded store. -/
theorem c2_at_most_one_active_witness :
    ((ensureContentSeed ⟨[], 0, 0⟩).recs.map (fun r => r.rid)).Nodup ∧
    AtMostOneActive (ensureContentSeed ⟨[], 0, 0⟩) ∧
    AtMostOneActive (publishDraftContent (ensureContentSeed ⟨[], 0, 0⟩)).1 := by
  have h := c2_at_most_one_active (ensureContentSeed ⟨[], 0, 0⟩) Js.null 1
    (by decide) (by constructor <;> decide)
  exact ⟨by decide, by constructor <;> decide, h.2.2.1⟩

/-! ### Sorting by updatedAt, and store well-formedness -/

theorem mem_insertByUpdatedDesc (x a : SRec) (l : List SRec) :
    a ∈ insertByUpdatedDesc x l ↔ a = x ∨ a ∈ l := by
  induction l with
  | nil => simp [insertByUpdatedDesc]
  | cons q qs ih =>
    rw [insertByUpdatedDesc]
    by_cases h : q.updatedAt ≤ x.updatedAt
    · simp [h]
    · simp only [h, if_neg, not_false_iff, List.mem_cons, ih]
      tauto

theorem perm_insertByUpdatedDesc (x : SRec) (l : List SRec) :
    (insertByUpdatedDesc x l).Perm (x :: l) := by
  induction l with
  | nil => simp [insertByUpdatedDesc]
  | cons q qs ih =>
    rw [insertByUpdatedDesc]
    by_cases h : q.updatedAt ≤ x.updatedAt
    · simp [h]
    · rw [if_neg h]
      exact List.Perm.trans (List.Perm.cons q ih) (List.Perm.swap x q qs)

theorem perm_sortByUpdatedDesc (l : List SRec) : (sortByUpdatedDesc l).Perm l := by
  induction l with
  | nil => simp [sortByUpdatedDesc]
  | cons r rs ih =>
    rw [sortByUpdatedDesc]
    exact (perm_insertByUpdatedDesc r (sortByUpdatedDesc rs)).trans (List.Perm.cons r ih)

theorem sorted_insertByUpdatedDesc (x : SRec) (l : List SRec)
    (h : l.Pairwise (fun a b => b.updatedAt ≤ a.updatedAt)) :
    (insertByUpdatedDesc x l).Pairwise (fun a b => b.updatedAt ≤ a.updatedAt) := by
  induction l with
  | nil => simp [insertByUpdatedDesc]
  | cons q qs ih =>
    rw [insertByUpdatedDesc]
    by_cases hc : q.updatedAt ≤ x.updatedAt
    · rw [if_pos hc]
      refine List.Pairwise.cons ?_ h
      intro b hb
      rcases List.mem_cons.mp hb with rfl | hb2
      · exact hc
      · exact le_trans (List.rel_of_pairwise_cons h hb2) hc
    · rw [if_neg hc]
      have hqs := List.pairwise_cons.mp h
      refine List.Pairwise.cons ?_ (ih hqs.2)
      intro b hb
      rcases (mem_insertByUpdatedDesc x b qs).mp hb with rfl | hb2
      · omega
      · exact hqs.1 b hb2

theorem sorted_sortByUpdatedDesc (l : List SRec) :
    (sortByUpdatedDesc l).Pairwise (fun a b => b.updatedAt ≤ a.updatedAt) := by
  induction l with
  | nil => simp [sortByUpdatedDesc]
  | cons r rs ih =>
    rw [sortByUpdatedDesc]
    exact sorted_insertByUpdatedDesc r _ ih

theorem wf_deactivate (s : Store) (h : StoreWF s) : StoreWF (deactivatePublished s) := by
  obtain ⟨hids, hbound, hclock⟩ := h
  refine ⟨?_, ?_, ?_⟩
  · simp only [deactivatePublished, List.map_map]
    have hcg : ∀ r ∈ s.recs, ((fun r : SRec => r.rid) ∘ (fun r : SRec =>
        if r.status == St.published && r.isActive then
          { r with isActive := false, updatedAt := s.clock } else r)) r
        = (fun r : SRec => r.rid) r := by
      intro r _
      by_cases hc : r.status = St.published ∧ r.isActive = true <;> simp [hc]
    rw [List.map_congr_left hcg]
    exact hids
  · intro r hr
    simp only [deactivatePublished] at hr ⊢
    rcases List.mem_map.mp hr with ⟨q, hq, rfl⟩
    have := hbound q hq
    by_cases hc : q.status = St.published ∧ q.isActive = true <;> simp [hc] <;> omega
  · intro r hr
    simp only [deactivatePublished] at hr ⊢
    rcases List.mem_map.mp hr with ⟨q, hq, rfl⟩
    have := hclock q hq
    by_cases hc : q.status = St.published ∧ q.isActive = true <;> simp [hc] <;> omega

theorem wf_createRec (s : Store) (st : St) (act : Bool) (v : Nat) (d : Js)
    (p : Option Nat) (h : StoreWF s) : StoreWF (createRec s st act v d p).1 := by
  obtain ⟨hids, hbound, hclock⟩ := h
  rw [createRec]
  refine ⟨?_, ?_, ?_⟩
  · simp only [List.map_append, List.map_cons, List.map_nil]
    rw [List.nodup_append]
    refine ⟨hids, List.nodup_singleton _, ?_⟩
    intro x hx
    rcases List.mem_map.mp hx with ⟨q, hq, rfl⟩
    simp only [List.mem_singleton]
    exact fun hc => absurd (hc ▸ hbound q hq) (lt_irrefl _)
  · intro r hr
    rcases List.mem_append.mp hr with hr | hr
    · exact Nat.lt_succ_of_lt (hbound r hr)
    · rcases List.mem_singleton.mp hr with rfl
      exact Nat.lt_succ_self _
  · intro r hr
    rcases List.mem_append.mp hr with hr | hr
    · exact Nat.lt_succ_of_lt (hclock r hr)
    · rcases List.mem_singleton.mp hr with rfl
      exact Nat.lt_succ_self _

theorem wf_restampDraft (s : Store) (draftRid pv : Nat) (nd : Js) (h : StoreWF s) :
    StoreWF (restampDraft s draftRid pv nd) := by
  obtain ⟨hids, hbound, hclock⟩ := h
  refine ⟨?_, ?_, ?_⟩
  · simp only [restampDraft, List.map_map]
    have hcg : ∀ r ∈ s.recs, ((fun r : SRec => r.rid) ∘ (fun r : SRec =>
        if r.rid = draftRid then
          { r with version := pv, data := nd, updatedAt := s.clock } else r)) r
        = (fun r : SRec => r.rid) r := by
      intro r _
      by_cases hc : r.rid = draftRid <;> simp [hc]
    rw [List.map_congr_left hcg]
    exact hids
  · intro r hr
    simp only [restampDraft] at hr ⊢
    rcases List.mem_map.mp hr with ⟨q, hq, rfl⟩
    have := hbound q hq
    by_cases hc : q.rid = draftRid <;> simp [hc] <;> omega
  · intro r hr
    simp only [restampDraft] at hr ⊢
    rcases List.mem_map.mp hr with ⟨q, hq, rfl⟩
    have := hclock q hq
    by_cases hc : q.rid = draftRid <;> simp [hc] <;> omega

theorem wf_prune (s : Store) (h : StoreWF s) : StoreWF (pruneOldPublished s) := by
  obtain ⟨hids, hbound, hclock⟩ := h
  refine ⟨?_, ?_, ?_⟩
  · rw [pruneOldPublished]
    exact List.Nodup.sublist (List.Sublist.map _ (List.filter_sublist _)) hids
  · intro r hr
    rw [pruneOldPublished] at hr
    exact hbound r (List.mem_of_mem_filter hr)
  · intro r hr
    rw [pruneOldPublished] at hr
    exact hclock r (List.mem_of_mem_filter hr)

/-! ### C3: publishing a draft -/

theorem foldl_max_map (f : SRec → SRec) (hf : ∀ r, (f r).version = r.version) :
    ∀ (l : List SRec) (acc : Nat),
      (l.map f).foldl (fun m r => max m r.version) acc
        = l.foldl (fun m r => max m r.version) acc := by
  intro l
  induction l with
  | nil => intro acc; rfl
  | cons r t ih =>
    intro acc
    simp only [List.map_cons, List.foldl_cons, hf r]
    exact ih _

theorem getMaxVersionN_deactivate (s : Store) :
    getMaxVersionN (deactivatePublished s) = getMaxVersionN s := by
  simp only [getMaxVersionN, deactivatePublished]
  refine foldl_max_map _ ?_ s.recs 0
  intro r
  by_cases hc : r.status = St.published ∧ r.isActive = true <;> simp [hc]

theorem publishDraftContent_explicit (s : Store) (draft : SRec)
    (hfd : findFirst s (fun r => r.status == St.draft && r.isActive) = some draft) :
    publishDraftContent s =
      (pruneOldPublished
        ⟨((s.recs.map (fun r : SRec =>
            if r.status == St.published && r.isActive then
              { r with isActive := false, updatedAt := s.clock } else r)) ++
          [(⟨s.nextId, St.published, true, getMaxVersionN (deactivatePublished s) + 1,
            normalizeContent draft.data, some (s.clock + 1), s.clock + 1⟩ : SRec)]).map
          (fun r : SRec =>
            if r.rid = draft.rid then
              { r with version := getMaxVersionN (deactivatePublished s) + 1,
                       data := normalizeContent draft.data, updatedAt := s.clock + 2 }
            else r),
          s.nextId + 1, s.clock + 3⟩,
        Except.ok (⟨s.nextId, St.published, true, getMaxVersionN (deactivatePublished s) + 1,
          normalizeContent draft.data, some (s.clock + 1), s.clock + 1⟩ : SRec)) := by
  rw [publishDraftContent, hfd]
  rfl


/-- C3: with an active draft, publishing creates the new active
published record carrying the normalized draft data and version
maxVersion+1; no other record remains active published; at most 10
published records are retained; and only inactive published records can
have been deleted (drafts and active records survive). Without an
active draft it throws 'No active draft found' with the store
unchanged. -/
theorem c3_publish_draft (s : Store) (hwf : StoreWF s) (hone : AtMostOneActive s) :
    (findFirst s (fun r => r.status == St.draft && r.isActive) = none →
      publishDraftContent s = (s, Except.error "No active draft found")) ∧
    (∀ draft : SRec, findFirst s (fun r => r.status == St.draft && r.isActive) = some draft →
      (publishDraftContent s).2 = Except.ok
          (⟨s.nextId, St.published, true, getMaxVersionN s + 1, normalizeContent draft.data,
            some (s.clock + 1), s.clock + 1⟩ : SRec) ∧
      (⟨s.nextId, St.published, true, getMaxVersionN s + 1, normalizeContent draft.data,
          some (s.clock + 1), s.clock + 1⟩ : SRec) ∈ (publishDraftContent s).1.recs ∧
      (∀ r ∈ (publishDraftContent s).1.recs, isActiveOf St.published r = true →
          r.rid = s.nextId) ∧
      (publishDraftContent s).1.recs.countP (fun r => r.status == St.published) ≤ 10 ∧
      (∀ r ∈ s.recs, r.status = St.draft ∨ r.isActive = true →
          ∃ r2 ∈ (publishDraftContent s).1.recs, r2.rid = r.rid)) := by
  obtain ⟨hids, hbound, hclock⟩ := hwf
  constructor
  · intro hfd
    rw [publishDraftContent, hfd]
  · intro draft hfd
    obtain ⟨hdm, hdpred⟩ := findFirst_mem s _ draft hfd
    obtain ⟨hdstat, hdact⟩ : draft.status = St.draft ∧ draft.isActive = true := by
      simpa using hdpred
    have hres := publishDraftContent_explicit s draft hfd
    rw [getMaxVersionN_deactivate] at hres
    set nd := normalizeContent draft.data with hnd
    set pv := getMaxVersionN s + 1 with hpv
    set pubRec : SRec := ⟨s.nextId, St.published, true, pv, nd, some (s.clock + 1),
      s.clock + 1⟩ with hpubRecDef
    set gfun : SRec → SRec := (fun r : SRec =>
      if r.status == St.published && r.isActive then
        { r with isActive := false, updatedAt := s.clock } else r) with hgdef
    set hfun : SRec → SRec := (fun r : SRec =>
      if r.rid = draft.rid then { r with version := pv, data := nd, updatedAt := s.clock + 2 }
      else r) with hhdef
    have hdrid : draft.rid < s.nextId := hbound draft hdm
    have hpubrid : pubRec.rid = s.nextId := by rw [hpubRecDef]
    have hpubact : pubRec.isActive = true := by rw [hpubRecDef]
    have hpubstat : pubRec.status = St.published := by rw [hpubRecDef]
    have hpubup : pubRec.updatedAt = s.clock + 1 := by rw [hpubRecDef]
    have hfun_pub : hfun pubRec = pubRec := by
      rw [hhdef]
      simp only [hpubrid]
      rw [if_neg (by omega)]
    have hL : ((s.recs.map gfun) ++ [pubRec]).map hfun
        = (s.recs.map (hfun ∘ gfun)) ++ [pubRec] := by
      rw [List.map_append, List.map_map]
      simp [hfun_pub]
    rw [hL] at hres
    set L := (s.recs.map (hfun ∘ gfun)) ++ [pubRec] with hLdef
    have hgdraft : gfun draft = draft := by
      rw [hgdef]
      simp [hdstat]
    have hcomp_draft : (hfun ∘ gfun) draft
        = { draft with version := pv, data := nd, updatedAt := s.clock + 2 } := by
      show hfun (gfun draft) = _
      rw [hgdraft, hhdef]
      simp
    have hcase_pub : ∀ r ∈ s.recs, r.status = St.published → r.isActive = true →
        (hfun ∘ gfun) r = { r with isActive := false, updatedAt := s.clock } := by
      intro r hr h1 h2
      have hrne : r ≠ draft := by
        intro hc
        rw [hc, hdstat] at h1
        exact absurd h1 (by decide)
      have hridne : r.rid ≠ draft.rid :=
        fun hc => hrne (List.inj_on_of_nodup_map hids hr hdm hc)
      show hfun (gfun r) = _
      have hg : gfun r = { r with isActive := false, updatedAt := s.clock } := by
        rw [hgdef]
        simp [h1, h2]
      rw [hg, hhdef]
      simp [hridne]
    have hcase_other : ∀ r ∈ s.recs, r ≠ draft → ¬(r.status = St.published ∧ r.isActive = true) →
        (hfun ∘ gfun) r = r := by
      intro r hr hrne hcond
      have hridne : r.rid ≠ draft.rid :=
        fun hc => hrne (List.inj_on_of_nodup_map hids hr hdm hc)
      show hfun (gfun r) = r
      have hg : gfun r = r := by
        rw [hgdef]
        simp [hcond]
      rw [hg, hhdef]
      simp [hridne]
    have hrid_comp : ∀ r : SRec, ((hfun ∘ gfun) r).rid = r.rid := by
      intro r
      have hg : (gfun r).rid = r.rid := by
        rw [hgdef]
        by_cases hc : r.status = St.published ∧ r.isActive = true <;> simp [hc]
      have hh : ∀ q : SRec, (hfun q).rid = q.rid := by
        intro q
        rw [hhdef]
        by_cases hc : q.rid = draft.rid <;> simp [hc]
      show (hfun (gfun r)).rid = r.rid
      rw [hh, hg]
    have hactiveL : ∀ x ∈ L, isActiveOf St.published x = true → x = pubRec := by
      intro x hx hact
      rcases List.mem_append.mp hx with hx | hx
      · rcases List.mem_map.mp hx with ⟨r, hr, rfl⟩
        by_cases hrd : r = draft
        · subst hrd
          rw [hcomp_draft] at hact
          simp [isActiveOf, hdstat] at hact
        · by_cases hpa : r.status = St.published ∧ r.isActive = true
          · rw [hcase_pub r hr hpa.1 hpa.2] at hact
            simp [isActiveOf] at hact
          · rw [hcase_other r hr hrd hpa] at hact
            obtain ⟨ha1, ha2⟩ : r.status = St.published ∧ r.isActive = true := by
              simpa [isActiveOf] using hact
            exact absurd ⟨ha1, ha2⟩ hpa
      · rcases List.mem_singleton.mp hx with rfl
        rfl
    have hnodupL : (L.map (fun r => r.rid)).Nodup := by
      rw [hLdef, List.map_append, List.map_map]
      have hmc : s.recs.map ((fun r : SRec => r.rid) ∘ (hfun ∘ gfun))
          = s.recs.map (fun r : SRec => r.rid) :=
        List.map_congr_left (fun r _ => hrid_comp r)
      rw [hmc, List.nodup_append]
      refine ⟨hids, List.nodup_singleton pubRec.rid, ?_⟩
      intro a ha hb
      rcases List.mem_map.mp ha with ⟨q, hq, rfl⟩
      rcases List.mem_map.mp hb with ⟨w, hw, hwr⟩
      rcases List.mem_singleton.mp hw with rfl
      rw [hpubrid] at hwr
      exact absurd (hwr ▸ hbound q hq) (lt_irrefl _)
    set P := L.filter (fun r => r.status == St.published) with hPdef
    have hPc2 : P.countP (fun q => decide (s.clock ≤ q.updatedAt)) ≤ 2 := by
      rw [hPdef, List.countP_filter, hLdef, List.countP_append]
      have hmap : (s.recs.map (hfun ∘ gfun)).countP
          (fun a => decide (s.clock ≤ a.updatedAt) && (a.status == St.published))
          ≤ activeCount s St.published := by
        rw [List.countP_map]
        refine List.countP_mono_left ?_
        intro r hr hcnt
        have hcnt2 : (decide (s.clock ≤ ((hfun ∘ gfun) r).updatedAt)
            && (((hfun ∘ gfun) r).status == St.published)) = true := hcnt
        simp only [Bool.and_eq_true, decide_eq_true_eq, beq_iff_eq] at hcnt2
        by_cases hrd : r = draft
        · subst hrd
          rw [hcomp_draft] at hcnt2
          have h3 : r.status = St.published := hcnt2.2
          rw [hdstat] at h3
          exact absurd h3 (by decide)
        · by_cases hpa : r.status = St.published ∧ r.isActive = true
          · simp [isActiveOf, hpa.1, hpa.2]
          · rw [hcase_other r hr hrd hpa] at hcnt2
            have := hclock r hr
            exact absurd hcnt2.1 (by omega)
      have hone2 := hone.2
      have hsing : ([pubRec].countP
          (fun a => decide (s.clock ≤ a.updatedAt) && (a.status == St.published))) ≤ 1 :=
        le_trans (List.countP_le_length _) (by simp)
      rw [activeCount] at hone2 hmap
      omega
    have hPc1 : P.countP (fun q => decide (s.clock + 1 ≤ q.updatedAt)) ≤ 1 := by
      rw [hPdef, List.countP_filter, hLdef, List.countP_append]
      have hmap : (s.recs.map (hfun ∘ gfun)).countP
          (fun a => decide (s.clock + 1 ≤ a.updatedAt) && (a.status == St.published)) = 0 := by
        rw [List.countP_map, List.countP_eq_zero]
        intro r hr hcnt
        have hcnt2 : (decide (s.clock + 1 ≤ ((hfun ∘ gfun) r).updatedAt)
            && (((hfun ∘ gfun) r).status == St.published)) = true := hcnt
        simp only [Bool.and_eq_true, decide_eq_true_eq, beq_iff_eq] at hcnt2
        by_cases hrd : r = draft
        · subst hrd
          rw [hcomp_draft] at hcnt2
          have h3 : r.status = St.published := hcnt2.2
          rw [hdstat] at h3
          exact absurd h3 (by decide)
        · by_cases hpa : r.status = St.published ∧ r.isActive = true
          · rw [hcase_pub r hr hpa.1 hpa.2] at hcnt2
            have h3 : s.clock + 1 ≤ s.clock := hcnt2.1
            omega
          · rw [hcase_other r hr hrd hpa] at hcnt2
            have := hclock r hr
            exact absurd hcnt2.1 (by omega)
      have hsing : ([pubRec].countP
          (fun a => decide (s.clock + 1 ≤ a.updatedAt) && (a.status == St.published))) ≤ 1 :=
        le_trans (List.countP_le_length _) (by simp)
      omega
    set S := sortByUpdatedDesc P with hSdef
    have hSperm : S.Perm P := perm_sortByUpdatedDesc P
    have hSsort : S.Pairwise (fun a b => b.updatedAt ≤ a.updatedAt) :=
      sorted_sortByUpdatedDesc P
    have hdrop : ∀ x ∈ S.drop 10, ¬ (s.clock ≤ x.updatedAt) := by
      intro x hx hclk
      have hlen : 10 < S.length := by
        by_contra hle
        push_neg at hle
        rw [List.drop_eq_nil_of_le hle] at hx
        cases hx
      have htakelen : (S.take 10).length = 10 := by
        rw [List.length_take]
        omega
      have hsplit : ∀ a ∈ S.take 10, ∀ b ∈ S.drop 10, b.updatedAt ≤ a.updatedAt := by
        have h2 := hSsort
        rw [← List.take_append_drop 10 S] at h2
        exact (List.pairwise_append.mp h2).2.2
      have hallhigh : ∀ a ∈ S.take 10, decide (s.clock ≤ a.updatedAt) = true := by
        intro a ha
        have := hsplit a ha x hx
        simp only [decide_eq_true_eq]
        omega
      have h10 : 10 ≤ S.countP (fun q => decide (s.clock ≤ q.updatedAt)) := by
        have hc1 : (S.take 10).countP (fun q => decide (s.clock ≤ q.updatedAt)) = 10 := by
          rw [List.countP_eq_length.mpr hallhigh, htakelen]
        have : S.countP (fun q => decide (s.clock ≤ q.updatedAt))
            = (S.take 10).countP (fun q => decide (s.clock ≤ q.updatedAt))
              + (S.drop 10).countP (fun q => decide (s.clock ≤ q.updatedAt)) := by
          rw [← List.countP_append, List.take_append_drop]
        omega
      have hPS := hSperm.countP_eq (fun q => decide (s.clock ≤ q.updatedAt))
      omega
    have hs4 : (publishDraftContent s).1 =
        ⟨L.filter (fun r => !(((S.drop 10).map (fun r => r.rid)).contains r.rid && !r.isActive)),
          s.nextId + 1, s.clock + 3⟩ := by
      rw [hres]
      rfl
    refine ⟨by rw [hres], ?_, ?_, ?_, ?_⟩
    · rw [hs4]
      show pubRec ∈ _
      refine List.mem_filter.mpr ⟨by rw [hLdef]; simp, ?_⟩
      rw [hpubact]
      simp
    · intro r hr hact
      rw [hs4] at hr
      have hrL : r ∈ L := List.mem_of_mem_filter hr
      have := hactiveL r hrL hact
      rw [this, hpubrid]
    · rw [hs4]
      show (L.filter _).countP (fun r => r.status == St.published) ≤ 10
      rw [List.countP_filter]
      have hcomm : L.countP (fun a => (a.status == St.published) &&
            !(((S.drop 10).map (fun r => r.rid)).contains a.rid && !a.isActive))
          = P.countP (fun a =>
            !(((S.drop 10).map (fun r => r.rid)).contains a.rid && !a.isActive)) := by
        rw [hPdef, List.countP_filter]
        refine List.countP_congr ?_
        intro x _
        constructor
        · intro hx
          simp only [Bool.and_eq_true] at hx ⊢
          exact ⟨hx.2, hx.1⟩
        · intro hx
          simp only [Bool.and_eq_true] at hx ⊢
          exact ⟨hx.2, hx.1⟩
      rw [hcomm]
      rw [← hSperm.countP_eq]
      have hSsplit : S.countP (fun a =>
            !(((S.drop 10).map (fun r => r.rid)).contains a.rid && !a.isActive))
          = (S.take 10).countP (fun a =>
              !(((S.drop 10).map (fun r => r.rid)).contains a.rid && !a.isActive))
            + (S.drop 10).countP (fun a =>
              !(((S.drop 10).map (fun r => r.rid)).contains a.rid && !a.isActive)) := by
        rw [← List.countP_append, List.take_append_drop]
      have hdropzero : (S.drop 10).countP (fun a =>
          !(((S.drop 10).map (fun r => r.rid)).contains a.rid && !a.isActive)) = 0 := by
        rw [List.countP_eq_zero]
        intro x hx
        have hxact : x.isActive = false := by
          by_contra hxa
          have hxa2 : x.isActive = true := by
            cases hxb : x.isActive
            · exact absurd hxb hxa
            · rfl
          have hxS : x ∈ S := (List.drop_sublist 10 S).subset hx
          have hxP : x ∈ P := hSperm.subset hxS
          have hxL : x ∈ L := List.mem_of_mem_filter (hPdef ▸ hxP)
          have hxmem := List.mem_filter.mp (hPdef ▸ hxP)
          have hxpub : (x.status == St.published) = true := hxmem.2
          have hxp : x = pubRec := by
            refine hactiveL x hxL ?_
            simp only [isActiveOf, hxa2, Bool.and_true]
            exact hxpub
          have hnd2 := hdrop x hx
          rw [hxp, hpubup] at hnd2
          exact hnd2 (by omega)
        have hcont : (((S.drop 10).map (fun r => r.rid)).contains x.rid) = true := by
          have hmem : x.rid ∈ (S.drop 10).map (fun r => r.rid) := List.mem_map_of_mem _ hx
          show List.elem x.rid ((S.drop 10).map (fun r => r.rid)) = true
          rw [List.elem_eq_mem]
          exact decide_eq_true hmem
        intro hpx
        simp only [hcont, hxact] at hpx
        exact absurd hpx (by decide)
      have htakelen : (S.take 10).length ≤ 10 := by
        rw [List.length_take]
        omega
      have := List.countP_le_length (fun a =>
          !(((S.drop 10).map (fun r => r.rid)).contains a.rid && !a.isActive))
        (l := S.take 10)
      omega
    · intro r hr hcond
      refine ⟨(hfun ∘ gfun) r, ?_, hrid_comp r⟩
      rw [hs4]
      show (hfun ∘ gfun) r ∈ List.filter
        (fun q => !(((S.drop 10).map (fun r => r.rid)).contains q.rid && !q.isActive)) L
      have hmemL : (hfun ∘ gfun) r ∈ L := by
        rw [hLdef]
        exact List.mem_append_left _ (List.mem_map_of_mem _ hr)
      refine List.mem_filter.mpr ⟨hmemL, ?_⟩
      cases hact : ((hfun ∘ gfun) r).isActive with
      | true => simp
      | false =>
        have hnotc : (((S.drop 10).map (fun q => q.rid)).contains ((hfun ∘ gfun) r).rid)
            = false := by
          by_contra hcc
          have hcc2 : (((S.drop 10).map (fun q => q.rid)).contains ((hfun ∘ gfun) r).rid)
              = true := by
            cases hb : (((S.drop 10).map (fun q => q.rid)).contains ((hfun ∘ gfun) r).rid)
            · exact absurd hb hcc
            · rfl
          have hmm : ((hfun ∘ gfun) r).rid ∈ (S.drop 10).map (fun q => q.rid) := by
            have h4 : List.elem ((hfun ∘ gfun) r).rid ((S.drop 10).map (fun q => q.rid))
                = true := hcc2
            rw [List.elem_eq_mem] at h4
            exact of_decide_eq_true h4
          rcases List.mem_map.mp hmm with ⟨y, hy, hyr⟩
          have hyS : y ∈ S := (List.drop_sublist 10 S).subset hy
          have hyP : y ∈ P := hSperm.subset hyS
          have hyL : y ∈ L := List.mem_of_mem_filter (hPdef ▸ hyP)
          have hymem := List.mem_filter.mp (hPdef ▸ hyP)
          have hypub : (y.status == St.published) = true := hymem.2
          have hyx : y = (hfun ∘ gfun) r :=
            List.inj_on_of_nodup_map hnodupL hyL hmemL hyr
          by_cases hrd : r = draft
          · subst hrd
            rw [hcomp_draft] at hyx
            rw [hyx] at hypub
            simp [hdstat] at hypub
          · by_cases hpa : r.status = St.published ∧ r.isActive = true
            · have himg := hcase_pub r hr hpa.1 hpa.2
              have hnd3 := hdrop y hy
              rw [hyx, himg] at hnd3
              simp at hnd3
            · have himg := hcase_other r hr hrd hpa
              rw [himg] at hyx
              rw [hyx] at hypub
              rcases hcond with hcd | hca
              · rw [hcd] at hypub
                simp at hypub
              · exact hpa ⟨by simpa using hypub, hca⟩
        rw [hnotc]
        simp

theorem c3_publish_draft_witness :
    StoreWF (ensureContentSeed ⟨[], 0, 0⟩) ∧ AtMostOneActive (ensureContentSeed ⟨[], 0, 0⟩) ∧
    findFirst (ensureContentSeed ⟨[], 0, 0⟩) (fun r => r.status == St.draft && r.isActive)
      = some (⟨1, St.draft, true, 1, normalizeContent defaultContent, none, 1⟩ : SRec) ∧
    (publishDraftContent (ensureContentSeed ⟨[], 0, 0⟩)).2 = Except.ok
      (⟨2, St.published, true, 2, normalizeContent (normalizeContent defaultContent),
        some 3, 3⟩ : SRec) :=
  ⟨by unfold StoreWF; decide, by unfold AtMostOneActive activeCount; decide, by rfl,
    ((c3_publish_draft (ensureContentSeed ⟨[], 0, 0⟩)
        (by unfold StoreWF; decide) (by unfold AtMostOneActive activeCount; decide)).2
      (⟨1, St.draft, true, 1, normalizeContent defaultContent, none, 1⟩ : SRec) (by rfl)).1⟩

theorem jsTruthy_normalizeContent (c : Js) : jsTruthy (normalizeContent c) = true := by
  cases c <;> rfl

/-- C4: when a published record with version v exists (findFirst takes
the first one, target), rollbackToVersion republishes its data: the
result is the new record holding normalizeContent target.data at
version maxVersion+1, the record is in the store, every record still
active published IS that record (the previously active published ones
were deactivated), and getContent afterwards returns
normalizeContent target.data. Without such a record it throws
'Version not found' and the store is unchanged. -/
theorem c4_rollback (s : Store) (v : Nat) :
    (findFirst s (fun r => r.status == St.published && r.version == v) = none →
      rollbackToVersion s v = (s, Except.error "Version not found")) ∧
    (∀ target : SRec,
      findFirst s (fun r => r.status == St.published && r.version == v) = some target →
      (rollbackToVersion s v).2 = Except.ok
          (⟨s.nextId, St.published, true, getMaxVersionN s + 1, normalizeContent target.data,
            some (s.clock + 1), s.clock + 1⟩ : SRec) ∧
      (⟨s.nextId, St.published, true, getMaxVersionN s + 1, normalizeContent target.data,
          some (s.clock + 1), s.clock + 1⟩ : SRec) ∈ (rollbackToVersion s v).1.recs ∧
      (∀ r ∈ (rollbackToVersion s v).1.recs, isActiveOf St.published r = true →
          r = (⟨s.nextId, St.published, true, getMaxVersionN s + 1,
            normalizeContent target.data, some (s.clock + 1), s.clock + 1⟩ : SRec)) ∧
      getContent (rollbackToVersion s v).1 = normalizeContent target.data) := by
  constructor
  · intro hfd
    rw [rollbackToVersion, hfd]
  · intro target hfd
    have hres : rollbackToVersion s v =
        (⟨(s.recs.map (fun r : SRec =>
            if r.status == St.published && r.isActive then
              { r with isActive := false, updatedAt := s.clock } else r)) ++
          [(⟨s.nextId, St.published, true, getMaxVersionN (deactivatePublished s) + 1,
            normalizeContent target.data, some (s.clock + 1), s.clock + 1⟩ : SRec)],
          s.nextId + 1, s.clock + 2⟩,
         Except.ok (⟨s.nextId, St.published, true, getMaxVersionN (deactivatePublished s) + 1,
            normalizeContent target.data, some (s.clock + 1), s.clock + 1⟩ : SRec)) := by
      rw [rollbackToVersion, hfd]
      rfl
    rw [getMaxVersionN_deactivate] at hres
    set nd := normalizeContent target.data with hnd
    set pv := getMaxVersionN s + 1 with hpv
    set newRec : SRec := ⟨s.nextId, St.published, true, pv, nd, some (s.clock + 1),
      s.clock + 1⟩ with hnewdef
    set gfun : SRec → SRec := (fun r : SRec =>
      if r.status == St.published && r.isActive then
        { r with isActive := false, updatedAt := s.clock } else r) with hgdef
    have hs2 : (rollbackToVersion s v).1 = ⟨s.recs.map gfun ++ [newRec],
        s.nextId + 1, s.clock + 2⟩ := by
      rw [hres]
    have himg : ∀ r : SRec, isActiveOf St.published (gfun r) = false := by
      intro r
      by_cases hc : r.status = St.published ∧ r.isActive = true
      · have hg : gfun r = { r with isActive := false, updatedAt := s.clock } := by
          rw [hgdef]
          simp [hc.1, hc.2]
        rw [hg]
        simp [isActiveOf]
      · have hg : gfun r = r := by
          rw [hgdef]
          simp [hc]
        rw [hg]
        have hne : ¬ ((r.status == St.published && r.isActive) = true) := by
          intro hb
          exact hc (by simpa using hb)
        rw [isActiveOf]
        exact Bool.eq_false_iff.mpr hne
    refine ⟨by rw [hres], ?_, ?_, ?_⟩
    · rw [hs2]
      show newRec ∈ s.recs.map gfun ++ [newRec]
      exact List.mem_append_right _ (List.mem_singleton_self _)
    · intro r hr hact
      rw [hs2] at hr
      have hr2 : r ∈ s.recs.map gfun ++ [newRec] := hr
      rcases List.mem_append.mp hr2 with hx | hx
      · rcases List.mem_map.mp hx with ⟨q, hq, rfl⟩
        rw [himg q] at hact
        exact absurd hact (by decide)
      · exact List.mem_singleton.mp hx
    · have hfilt : (s.recs.map gfun ++ [newRec]).filter
          (fun r => r.status == St.published && r.isActive) = [newRec] := by
        rw [List.filter_append]
        have h1 : (s.recs.map gfun).filter (fun r => r.status == St.published && r.isActive)
            = [] := by
          rw [List.filter_eq_nil_iff]
          intro a ha
          rcases List.mem_map.mp ha with ⟨q, hq, rfl⟩
          have h2 := himg q
          rw [isActiveOf] at h2
          simp [h2]
        rw [h1]
        rfl
      have hga : getActiveContent (rollbackToVersion s v).1 St.published = some newRec := by
        rw [hs2, getActiveContent]
        show maxByUpdated ((s.recs.map gfun ++ [newRec]).filter
            (fun r => r.status == St.published && r.isActive)) = some newRec
        rw [hfilt]
        rfl
      rw [getContent, hga]
      have hj : jsTruthy newRec.data = true := jsTruthy_normalizeContent target.data
      show (if jsTruthy newRec.data then newRec.data else normalizeContent defaultContent) = nd
      rw [hj]
      rfl

theorem c4_rollback_witness :
    findFirst (ensureContentSeed ⟨[], 0, 0⟩)
      (fun r => r.status == St.published && r.version == 1)
      = some (⟨0, St.published, true, 1, normalizeContent defaultContent, some 0, 0⟩ : SRec) ∧
    getContent (rollbackToVersion (ensureContentSeed ⟨[], 0, 0⟩) 1).1
      = normalizeContent (normalizeContent defaultContent) :=
  ⟨by rfl,
   ((c4_rollback (ensureContentSeed ⟨[], 0, 0⟩) 1).2
      (⟨0, St.published, true, 1, normalizeContent defaultContent, some 0, 0⟩ : SRec)
      (by rfl)).2.2.2⟩

/-- C5 counterexample: on the freshly seeded store an admin saves the
content object {hero:"X"} through POST /api/content (which answers 200),
yet the immediately following admin GET /api/content returns neither
that object nor its normalization: the write went to the draft record
while the read serves the published record. -/
theorem c5_roundtrip_counterexample :
    (contentPostHandler (ensureContentSeed ⟨[], 0, 0⟩)
        (Js.objL [("hero", Js.str "X")])).1.status = 200 ∧
    ((contentGetHandler (contentPostHandler (ensureContentSeed ⟨[], 0, 0⟩)
        (Js.objL [("hero", Js.str "X")])).2 true).1.body
      == Js.objL [("hero", Js.str "X")]) = false ∧
    ((contentGetHandler (contentPostHandler (ensureContentSeed ⟨[], 0, 0⟩)
        (Js.objL [("hero", Js.str "X")])).2 true).1.body
      == normalizeContent (Js.objL [("hero", Js.str "X")])) = false := by
  decide

theorem filter_map_inv {α : Type} (p : α → Bool) (f : α → α) :
    ∀ l : List α, (∀ r ∈ l, p (f r) = p r ∧ (p r = true → f r = r)) →
      (l.map f).filter p = l.filter p := by
  intro l
  induction l with
  | nil => intro _; rfl
  | cons a t ih =>
    intro h
    obtain ⟨h1, h2⟩ := h a (by simp)
    have ht := ih (fun r hr => h r (by simp [hr]))
    rw [List.map_cons, List.filter_cons, List.filter_cons, h1]
    cases hp : p a with
    | false => simpa [hp] using ht
    | true => simpa [hp, h2 hp] using ht

theorem find?_map_found {α : Type} (p : α → Bool) (f : α → α) :
    ∀ (l : List α) (d : α), l.find? p = some d →
      (∀ r ∈ l, p r = false → f r = r) → p (f d) = true →
      (l.map f).find? p = some (f d) := by
  intro l
  induction l with
  | nil => intro d h; cases h
  | cons a t ih =>
    intro d h hfix hp
    cases hpa : p a with
    | true =>
      rw [List.find?_cons_of_pos _ hpa] at h
      injection h with h2
      subst h2
      rw [List.map_cons, List.find?_cons_of_pos _ hp]
    | false =>
      rw [List.find?_cons_of_neg _ (by simp [hpa])] at h
      have hfa : f a = a := hfix a (by simp) hpa
      rw [List.map_cons, List.find?_cons_of_neg _ (by simp [hfa, hpa])]
      exact ih d h (fun r hr hpr => hfix r (by simp [hr]) hpr) hp

theorem jsTruthy_getContent (s : Store) : jsTruthy (getContent s) = true := by
  rw [getContent]
  cases hga : getActiveContent s St.published with
  | none => exact jsTruthy_normalizeContent defaultContent
  | some r =>
    show jsTruthy (if jsTruthy r.data then r.data else normalizeContent defaultContent) = true
    cases hj : jsTruthy r.data with
    | true => simp [hj]
    | false => simp [hj, jsTruthy_normalizeContent]

theorem saveDraft_key (s : Store) (c : Js)
    (hids : (s.recs.map (fun r => r.rid)).Nodup) :
    (∃ d : SRec, findFirst (saveDraftContent s c).1
        (fun r => r.status == St.draft && r.isActive) = some d ∧
      d.data = normalizeContent c) ∧
    getContent (saveDraftContent s c).1 = getContent s := by
  set normalized := normalizeContent c with hnorm
  cases hfd : findFirst s (fun r => r.status == St.draft && r.isActive) with
  | some d =>
    obtain ⟨hdm, hdp⟩ := findFirst_mem s _ d hfd
    have hdstat : d.status = St.draft := by
      have h2 : (d.status == St.draft && d.isActive) = true := hdp
      simp only [Bool.and_eq_true, beq_iff_eq] at h2
      exact h2.1
    set d2 : SRec := { d with data := normalized, updatedAt := s.clock } with hd2
    set f : SRec → SRec := fun r => if r.rid = d.rid then d2 else r with hfdef
    have hs2 : (saveDraftContent s (c)).1
        = ⟨s.recs.map f, s.nextId, s.clock + 1⟩ := by
      rw [saveDraftContent, hfd]
    have hfix : ∀ r ∈ s.recs,
        (fun r => r.status == St.draft && r.isActive) r = false → f r = r := by
      intro r hr hpr
      rw [hfdef]
      by_cases hrid : r.rid = d.rid
      · have hrd : r = d := List.inj_on_of_nodup_map hids hr hdm hrid
        have hpr2 : (d.status == St.draft && d.isActive) = false := hrd ▸ hpr
        have hdp2 : (d.status == St.draft && d.isActive) = true := hdp
        rw [hpr2] at hdp2
        exact absurd hdp2 (by decide)
      · simp [hrid]
    have hfd2 : f d = d2 := by
      rw [hfdef]
      simp
    have hpd2 : (fun r => r.status == St.draft && r.isActive) (f d) = true := by
      rw [hfd2]
      show (d2.status == St.draft && d2.isActive) = true
      exact hdp
    have hfind : s.recs.find? (fun r => r.status == St.draft && r.isActive) = some d := by
      rw [← findFirst_eq_find?]
      exact hfd
    have hff : findFirst (⟨s.recs.map f, s.nextId, s.clock + 1⟩ : Store)
        (fun r => r.status == St.draft && r.isActive) = some (f d) := by
      rw [findFirst_eq_find?]
      exact find?_map_found _ f s.recs d hfind hfix hpd2
    have hfiltp : (s.recs.map f).filter (fun r => r.status == St.published && r.isActive)
        = s.recs.filter (fun r => r.status == St.published && r.isActive) := by
      refine filter_map_inv _ f s.recs ?_
      intro r hr
      by_cases hrid : r.rid = d.rid
      · have hrd : r = d := List.inj_on_of_nodup_map hids hr hdm hrid
        have hfr : f r = d2 := by
          rw [hfdef]
          simp [hrid]
        have hpr : (r.status == St.published && r.isActive) = false := by
          rw [hrd, hdstat]
          simp
        have hpd2f : (d2.status == St.published && d2.isActive) = false := by
          have hst : d2.status = d.status := rfl
          rw [hst, hdstat]
          simp
        constructor
        · rw [hfr]
          show (d2.status == St.published && d2.isActive)
            = (r.status == St.published && r.isActive)
          rw [hpd2f, hpr]
        · intro hpt
          have hpt2 : (r.status == St.published && r.isActive) = true := hpt
          rw [hpr] at hpt2
          exact absurd hpt2 (by decide)
      · have hfr : f r = r := by
          rw [hfdef]
          simp [hrid]
        exact ⟨by rw [hfr], fun _ => hfr⟩
    have hga : getActiveContent (⟨s.recs.map f, s.nextId, s.clock + 1⟩ : Store) St.published
        = getActiveContent s St.published := by
      rw [getActiveContent, getActiveContent]
      show maxByUpdated ((s.recs.map f).filter
          (fun r => r.status == St.published && r.isActive))
        = maxByUpdated (s.recs.filter (fun r => r.status == St.published && r.isActive))
      rw [hfiltp]
    refine ⟨⟨f d, by rw [hs2]; exact hff, by rw [hfd2]⟩, ?_⟩
    rw [hs2, getContent, getContent, hga]
  | none =>
    have hnone : ∀ r ∈ s.recs,
        ¬ ((fun r => r.status == St.draft && r.isActive) r = true) :=
      (findFirst_none_iff s _).mp hfd
    set nr : SRec := ⟨s.nextId, St.draft, true, getMaxVersionN s + 1, normalized, none, s.clock⟩
      with hnr
    have hs2 : (saveDraftContent s (c)).1
        = ⟨s.recs ++ [nr], s.nextId + 1, s.clock + 1⟩ := by
      rw [saveDraftContent, hfd]
      rfl
    have hfilt0 : s.recs.filter (fun r => r.status == St.draft && r.isActive) = [] :=
      List.filter_eq_nil_iff.mpr hnone
    have hff : findFirst (⟨s.recs ++ [nr], s.nextId + 1, s.clock + 1⟩ : Store)
        (fun r => r.status == St.draft && r.isActive) = some nr := by
      rw [findFirst]
      show ((s.recs ++ [nr]).filter (fun r => r.status == St.draft && r.isActive)).head?
        = some nr
      rw [List.filter_append, hfilt0]
      rfl
    have hfiltp : (s.recs ++ [nr]).filter (fun r => r.status == St.published && r.isActive)
        = s.recs.filter (fun r => r.status == St.published && r.isActive) := by
      rw [List.filter_append]
      have h0 : [nr].filter (fun r => r.status == St.published && r.isActive) = [] := rfl
      rw [h0, List.append_nil]
    have hga : getActiveContent (⟨s.recs ++ [nr], s.nextId + 1, s.clock + 1⟩ : Store)
        St.published = getActiveContent s St.published := by
      rw [getActiveContent, getActiveContent]
      show maxByUpdated ((s.recs ++ [nr]).filter
          (fun r => r.status == St.published && r.isActive))
        = maxByUpdated (s.recs.filter (fun r => r.status == St.published && r.isActive))
      rw [hfiltp]
    refine ⟨⟨nr, by rw [hs2]; exact hff, by rw [hnr]⟩, ?_⟩
    rw [hs2, getContent, getContent, hga]

/-- C5 (amended): POST /api/content with an object body c responds 200
and stores normalizeContent c as the data of the active draft record;
the document served by GET /api/content is NOT updated: getContent is
unchanged by the save, and an immediately subsequent admin
GET /api/content returns the same document as before the save (so
save/read does not round-trip through these endpoints). -/
theorem c5_content_post_get (s : Store) (c : Js) (fs : JsFields) (hc : c = Js.obj fs)
    (hwf : StoreWF s) :
    (contentPostHandler s c).1.status = 200 ∧
    (∃ d : SRec, findFirst (contentPostHandler s c).2
          (fun r => r.status == St.draft && r.isActive) = some d ∧
        d.data = normalizeContent c) ∧
    getContent (contentPostHandler s c).2 = getContent s ∧
    (contentGetHandler (contentPostHandler s c).2 true).1
      = ⟨200, getContent s⟩ := by
  obtain ⟨hids, hbound, hclock⟩ := hwf
  subst hc
  have hps : (contentPostHandler s (Js.obj fs)).2 = (saveDraftContent s (Js.obj fs)).1 := rfl
  have key := saveDraft_key s (Js.obj fs) hids
  have hj : jsTruthy (getContent (saveDraftContent s (Js.obj fs)).1) = true :=
    jsTruthy_getContent _
  have hhandler : contentGetHandler (saveDraftContent s (Js.obj fs)).1 true
      = (⟨200, getContent (saveDraftContent s (Js.obj fs)).1⟩,
         (saveDraftContent s (Js.obj fs)).1) := by
    rw [contentGetHandler, hj]
    rfl
  refine ⟨rfl, by rw [hps]; exact key.1, by rw [hps]; exact key.2, ?_⟩
  rw [hps, hhandler, key.2]

theorem c5_content_post_get_witness :
    StoreWF (ensureContentSeed ⟨[], 0, 0⟩) ∧
    ((contentPostHandler (ensureContentSeed ⟨[], 0, 0⟩)
        (Js.objL [("hero", Js.str "X")])).1.status = 200 ∧
     (∃ d : SRec, findFirst (contentPostHandler (ensureContentSeed ⟨[], 0, 0⟩)
            (Js.objL [("hero", Js.str "X")])).2
          (fun r => r.status == St.draft && r.isActive) = some d ∧
        d.data = normalizeContent (Js.objL [("hero", Js.str "X")])) ∧
     getContent (contentPostHandler (ensureContentSeed ⟨[], 0, 0⟩)
        (Js.objL [("hero", Js.str "X")])).2 = getContent (ensureContentSeed ⟨[], 0, 0⟩) ∧
     (contentGetHandler (contentPostHandler (ensureContentSeed ⟨[], 0, 0⟩)
          (Js.objL [("hero", Js.str "X")])).2 true).1
       = ⟨200, getContent (ensureContentSeed ⟨[], 0, 0⟩)⟩) :=
  ⟨by unfold StoreWF; decide,
   c5_content_post_get (ensureContentSeed ⟨[], 0, 0⟩) (Js.objL [("hero", Js.str "X")])
     (JsFields.ofList [("hero", Js.str "X")]) rfl (by unfold StoreWF; decide)⟩

theorem wf_saveDraftContent (s : Store) (c : Js) (hwf : StoreWF s) :
    StoreWF (saveDraftContent s c).1 := by
  obtain ⟨hids, hbound, hclock⟩ := hwf
  cases hfd : findFirst s (fun r => r.status == St.draft && r.isActive) with
  | some d =>
    have hs2 : (saveDraftContent s c).1
        = ⟨s.recs.map (fun r => if r.rid = d.rid then
            ({ d with data := normalizeContent c, updatedAt := s.clock } : SRec) else r),
          s.nextId, s.clock + 1⟩ := by
      rw [saveDraftContent, hfd]
    rw [hs2]
    set f : SRec → SRec := fun r => if r.rid = d.rid then
        ({ d with data := normalizeContent c, updatedAt := s.clock } : SRec) else r with hf
    have hrid : ∀ r : SRec, (f r).rid = r.rid := by
      intro r
      rw [hf]
      by_cases hc2 : r.rid = d.rid
      · simp [hc2]
      · simp [hc2]
    refine ⟨?_, ?_, ?_⟩
    · show ((s.recs.map f).map (fun r => r.rid)).Nodup
      rw [List.map_map]
      have hmc : s.recs.map ((fun r : SRec => r.rid) ∘ f)
          = s.recs.map (fun r : SRec => r.rid) :=
        List.map_congr_left (fun r _ => hrid r)
      rw [hmc]
      exact hids
    · intro r hr
      rcases List.mem_map.mp hr with ⟨q, hq, rfl⟩
      show (f q).rid < s.nextId
      rw [hrid q]
      exact hbound q hq
    · intro r hr
      rcases List.mem_map.mp hr with ⟨q, hq, rfl⟩
      show (f q).updatedAt < s.clock + 1
      by_cases hc2 : q.rid = d.rid
      · have he : f q = { d with data := normalizeContent c, updatedAt := s.clock } := by
          rw [hf]
          simp [hc2]
        rw [he]
        show s.clock < s.clock + 1
        omega
      · have he : f q = q := by
          rw [hf]
          simp [hc2]
        rw [he]
        exact Nat.lt_succ_of_lt (hclock q hq)
  | none =>
    have hs2 : (saveDraftContent s c).1
        = (createRec s St.draft true (getMaxVersionN s + 1) (normalizeContent c) none).1 := by
      rw [saveDraftContent, hfd]
    rw [hs2]
    exact wf_createRec s St.draft true (getMaxVersionN s + 1) (normalizeContent c) none
      ⟨hids, hbound, hclock⟩

/-- C10: a non-admin GET /api/content responds 200 with the served
document's view counter bumped (incViews applied to getContent), and
persists that document via setContent, whose write goes to the active
draft record only: getContent — the published data the handler reads —
is unchanged, and every later non-admin GET, however many requests
intervene, still answers with incViews of that same unchanged
document, so the persisted counter never feeds back into responses. -/
theorem c10_view_count_frame (s : Store) (hwf : StoreWF s) :
    (contentGetHandler s false).1 = ⟨200, incViews (getContent s)⟩ ∧
    (contentGetHandler s false).2 = (setContent s (incViews (getContent s))).1 ∧
    (∃ d : SRec, findFirst (contentGetHandler s false).2
        (fun r => r.status == St.draft && r.isActive) = some d ∧
      d.data = normalizeContent (incViews (getContent s))) ∧
    getContent (contentGetHandler s false).2 = getContent s ∧
    (∀ k : Nat, (contentGetIter k s).1.body = incViews (getContent s)) := by
  have hh : ∀ t : Store, contentGetHandler t false
      = (⟨200, incViews (getContent t)⟩,
         (saveDraftContent t (incViews (getContent t))).1) := by
    intro t
    rw [contentGetHandler, jsTruthy_getContent t]
    rfl
  have hkey := saveDraft_key s (incViews (getContent s)) hwf.1
  refine ⟨by rw [hh s], by rw [hh s]; exact rfl, ?_, ?_, ?_⟩
  · rw [hh s]
    exact hkey.1
  · rw [hh s]
    exact hkey.2
  · have main : ∀ k : Nat, ∀ t : Store, StoreWF t →
        (contentGetIter k t).1.body = incViews (getContent t) := by
      intro k
      induction k with
      | zero =>
        intro t hwt
        show (contentGetHandler t false).1.body = incViews (getContent t)
        rw [hh t]
      | succ k ih =>
        intro t hwt
        have hwf2 := wf_saveDraftContent t (incViews (getContent t)) hwt
        have hgc2 := (saveDraft_key t (incViews (getContent t)) hwt.1).2
        show (contentGetIter k (contentGetHandler t false).2).1.body = incViews (getContent t)
        rw [hh t]
        rw [ih _ hwf2, hgc2]
    intro k
    exact main k s hwf

theorem c10_view_count_frame_witness :
    StoreWF (ensureContentSeed ⟨[], 0, 0⟩) ∧
    (contentGetHandler (ensureContentSeed ⟨[], 0, 0⟩) false).1
      = ⟨200, incViews (getContent (ensureContentSeed ⟨[], 0, 0⟩))⟩ ∧
    getContent (contentGetHandler (ensureContentSeed ⟨[], 0, 0⟩) false).2
      = getContent (ensureContentSeed ⟨[], 0, 0⟩) :=
  ⟨by unfold StoreWF; decide,
   (c10_view_count_frame (ensureContentSeed ⟨[], 0, 0⟩) (by unfold StoreWF; decide)).1,
   (c10_view_count_frame (ensureContentSeed ⟨[], 0, 0⟩)
      (by unfold StoreWF; decide)).2.2.2.1⟩

theorem getField_jsonFail_error (msg : String) :
    getField (jsonFail msg) "error" = some (Js.str msg) := rfl

theorem loginHandler_cases (env : String) (users : List UserRec) (req : LoginReq) :
    (loginHandler env users req).status = 200 ∨
    (∃ msg : String, (loginHandler env users req).body = jsonFail msg) ∨
    (loginHandler env users req).body = Js.objL [("success", Js.bool false),
        ("error", Js.str "Email not verified. Please verify first."),
        ("canResend", Js.bool true)] := by
  cases hfind : users.find? (fun u => u.email == normalizeEmail req.email) with
  | none =>
    have hresp : (loginHandler env users req).body = jsonFail (if req.type == "admin"
        then "Invalid credentials." else "User not found. Please Sign Up.") := by
      rw [loginHandler, hfind]
    exact Or.inr (Or.inl ⟨_, hresp⟩)
  | some user =>
    cases hver : user.isVerified with
    | false =>
      refine Or.inr (Or.inr ?_)
      rw [loginHandler, hfind]
      simp [hver]
    | true =>
      have hverF : (!user.isVerified) = false := by simp [hver]
      cases hpw : user.password with
      | none =>
        refine Or.inr (Or.inl ⟨"Account outdated. Please Register again.", ?_⟩)
        rw [loginHandler, hfind]
        simp [hverF, hpw]
      | some hash =>
        by_cases htype : (req.type == "admin") = true
        · by_cases hadm : user.isAdmin = true
          · have hadmF : (!user.isAdmin) = false := by simp [hadm]
            by_cases henv : (env == "") = true
            · refine Or.inr (Or.inl ⟨"Admin login is unavailable.", ?_⟩)
              rw [loginHandler, hfind]
              simp [hverF, hpw, htype, hadmF, henv]
            · by_cases hmk : (req.masterKey == ""
                  || !safeCompareSecrets req.masterKey env) = true
              · refine Or.inr (Or.inl ⟨"Invalid credentials.", ?_⟩)
                rw [loginHandler, hfind]
                simp [hverF, hpw, htype, hadmF, henv, hmk]
              · by_cases hbc : bcryptCompare (jsTrim req.password) hash = true
                · refine Or.inl ?_
                  rw [loginHandler, hfind]
                  simp [hverF, hpw, htype, hadmF, henv, hmk, hbc]
                · refine Or.inr (Or.inl ⟨"Invalid credentials.", ?_⟩)
                  rw [loginHandler, hfind]
                  simp [hverF, hpw, htype, hadmF, henv, hmk, hbc]
          · have hadmT : (!user.isAdmin) = true := by
              simp [Bool.eq_false_iff.mpr hadm]
            refine Or.inr (Or.inl ⟨"Invalid credentials.", ?_⟩)
            rw [loginHandler, hfind]
            simp [hverF, hpw, htype, hadmT]
        · by_cases hbc : bcryptCompare (jsTrim req.password) hash = true
          · refine Or.inl ?_
            rw [loginHandler, hfind]
            simp [hverF, hpw, htype, hbc]
          · refine Or.inr (Or.inl ⟨"Invalid Password", ?_⟩)
            rw [loginHandler, hfind]
            simp [hverF, hpw, htype, hbc]

theorem registerHandler_cases (users : List UserRec) (nextUid : Nat) (req : RegisterReq) :
    (registerHandler users nextUid req).1.status = 200 ∨
    ∃ msg : String, (registerHandler users nextUid req).1 = ⟨400, jsonFail msg⟩ := by
  by_cases hreq : (sanitizeText req.name = "" ∨ normalizeEmail req.email = "")
      ∨ jsTrim req.password = ""
  · refine Or.inr ⟨"All fields are required", ?_⟩
    rw [registerHandler]
    simp [hreq]
  · cases hfind : users.find? (fun u => u.email == normalizeEmail req.email) with
    | some u =>
      refine Or.inr ⟨"Email already exists", ?_⟩
      rw [registerHandler, hfind]
      simp [hreq]
    | none =>
      refine Or.inl ?_
      rw [registerHandler, hfind]
      simp [hreq]

theorem followPost_cases (st : FollowState) (selfId targetId : Nat) :
    (followPostHandler st selfId targetId).1.status = 200 ∨
    ∃ msg : String, (followPostHandler st selfId targetId).1.body = jsonFail msg := by
  by_cases hself : (selfId == targetId) = true
  · refine Or.inr ⟨"Cannot follow yourself", ?_⟩
    rw [followPostHandler]
    simp [hself]
  · cases hfindt : st.users.find? (fun u => u.fid == targetId) with
    | none =>
      refine Or.inr ⟨"User not found", ?_⟩
      rw [followPostHandler, hfindt]
      simp [hself]
    | some u =>
      by_cases hdup : (selfId, targetId) ∈ st.follows
      · refine Or.inr ⟨"Already following", ?_⟩
        rw [followPostHandler, hfindt]
        simp [hself, hdup]
      · refine Or.inl ?_
        rw [followPostHandler, hfindt]
        simp [hself, hdup]

theorem followDelete_cases (st : FollowState) (selfId : Nat) (targetId : Option Nat) :
    (followDeleteHandler st selfId targetId).1.status = 200 ∨
    (followDeleteHandler st selfId targetId).1 = ⟨400, jsonFail "Invalid user id"⟩ := by
  cases targetId with
  | none => exact Or.inr rfl
  | some tid =>
    refine Or.inl ?_
    rw [followDeleteHandler]
    by_cases h : (selfId, tid) ∈ st.follows
    · simp [h]
    · simp [h]

theorem contentGet_status (s : Store) (adminCookie : Bool) :
    (contentGetHandler s adminCookie).1.status = 200 := by
  rw [contentGetHandler, jsTruthy_getContent s]
  cases adminCookie <;> rfl

/-- C9 counterexample: the POST /api/content error response for an
invalid (non-object) payload is {error:'Invalid content payload'} —
an error body with no success field at all, contradicting "no error
path returns a JSON body lacking the success:false field". -/
theorem c9_error_shape_counterexample :
    (contentPostHandler ⟨[], 0, 0⟩ (Js.arrL [])).1.status = 400 ∧
    getField (contentPostHandler ⟨[], 0, 0⟩ (Js.arrL [])).1.body "error"
      = some (Js.str "Invalid content payload") ∧
    getField (contentPostHandler ⟨[], 0, 0⟩ (Js.arrL [])).1.body "success" = none := by
  decide

/-- C9 (amended): the login, register, follow-creation and
follow-deletion handlers answer every error (any non-200 response) with
a JSON body carrying success:false and an error string (the deletion
handler errors only on a malformed user id); GET /api/content produces
no error responses at all; but the POST /api/content error response
carries only the error string — its body has no success field. -/
theorem c9_error_success_flag (env : String) (users : List UserRec) (lreq : LoginReq)
    (rusers : List UserRec) (nextUid : Nat) (rreq : RegisterReq)
    (fst : FollowState) (selfId targetId : Nat) (did : Option Nat) (s : Store)
    (adminCookie : Bool) (body : Js) :
    ((loginHandler env users lreq).status ≠ 200 →
      getField (loginHandler env users lreq).body "success" = some (Js.bool false) ∧
      ∃ msg : String, getField (loginHandler env users lreq).body "error"
        = some (Js.str msg)) ∧
    ((registerHandler rusers nextUid rreq).1.status ≠ 200 →
      getField (registerHandler rusers nextUid rreq).1.body "success"
        = some (Js.bool false) ∧
      ∃ msg : String, getField (registerHandler rusers nextUid rreq).1.body "error"
        = some (Js.str msg)) ∧
    ((followPostHandler fst selfId targetId).1.status ≠ 200 →
      getField (followPostHandler fst selfId targetId).1.body "success"
        = some (Js.bool false) ∧
      ∃ msg : String, getField (followPostHandler fst selfId targetId).1.body "error"
        = some (Js.str msg)) ∧
    ((followDeleteHandler fst selfId did).1.status ≠ 200 →
      getField (followDeleteHandler fst selfId did).1.body "success"
        = some (Js.bool false) ∧
      ∃ msg : String, getField (followDeleteHandler fst selfId did).1.body "error"
        = some (Js.str msg)) ∧
    (contentGetHandler s adminCookie).1.status = 200 ∧
    ((contentPostHandler s body).1.status ≠ 200 →
      getField (contentPostHandler s body).1.body "error"
        = some (Js.str "Invalid content payload") ∧
      getField (contentPostHandler s body).1.body "success" = none) := by
  refine ⟨?_, ?_, ?_, ?_, contentGet_status s adminCookie, ?_⟩
  · intro hne
    rcases loginHandler_cases env users lreq with h200 | ⟨msg, hbody⟩ | hbody
    · exact absurd h200 hne
    · rw [hbody]
      exact ⟨getField_jsonFail_success msg, ⟨msg, getField_jsonFail_error msg⟩⟩
    · rw [hbody]
      exact ⟨rfl, ⟨"Email not verified. Please verify first.", rfl⟩⟩
  · intro hne
    rcases registerHandler_cases rusers nextUid rreq with h200 | ⟨msg, hresp⟩
    · exact absurd h200 hne
    · rw [hresp]
      exact ⟨getField_jsonFail_success msg, ⟨msg, getField_jsonFail_error msg⟩⟩
  · intro hne
    rcases followPost_cases fst selfId targetId with h200 | ⟨msg, hbody⟩
    · exact absurd h200 hne
    · rw [hbody]
      exact ⟨getField_jsonFail_success msg, ⟨msg, getField_jsonFail_error msg⟩⟩
  · intro hne
    rcases followDelete_cases fst selfId did with h200 | hresp
    · exact absurd h200 hne
    · rw [hresp]
      exact ⟨getField_jsonFail_success _, ⟨_, getField_jsonFail_error _⟩⟩
  · intro hne
    cases body with
    | obj fs => exact absurd rfl hne
    | null => exact ⟨rfl, rfl⟩
    | bool b => exact ⟨rfl, rfl⟩
    | num n => exact ⟨rfl, rfl⟩
    | str t => exact ⟨rfl, rfl⟩
    | arr xs => exact ⟨rfl, rfl⟩

theorem c9_error_success_flag_witness :
    ((loginHandler "" [] ⟨"", "", "", ""⟩).status ≠ 200 ∧
     getField (loginHandler "" [] ⟨"", "", "", ""⟩).body "success"
       = some (Js.bool false)) ∧
    ((registerHandler [] 0 ⟨"", "", ""⟩).1.status ≠ 200 ∧
     getField (registerHandler [] 0 ⟨"", "", ""⟩).1.body "success"
       = some (Js.bool false)) ∧
    ((followPostHandler ⟨[], []⟩ 0 0).1.status ≠ 200 ∧
     getField (followPostHandler ⟨[], []⟩ 0 0).1.body "success" = some (Js.bool false)) ∧
    ((followDeleteHandler ⟨[], []⟩ 0 none).1.status ≠ 200 ∧
     getField (followDeleteHandler ⟨[], []⟩ 0 none).1.body "success"
       = some (Js.bool false)) ∧
    ((contentPostHandler ⟨[], 0, 0⟩ Js.null).1.status ≠ 200 ∧
     getField (contentPostHandler ⟨[], 0, 0⟩ Js.null).1.body "success" = none) :=
  ⟨⟨by decide, ((c9_error_success_flag "" [] ⟨"", "", "", ""⟩ [] 0 ⟨"", "", ""⟩ ⟨[], []⟩ 0 0
      none ⟨[], 0, 0⟩ false Js.null).1 (by decide)).1⟩,
   ⟨by decide, ((c9_error_success_flag "" [] ⟨"", "", "", ""⟩ [] 0 ⟨"", "", ""⟩ ⟨[], []⟩ 0 0
      none ⟨[], 0, 0⟩ false Js.null).2.1 (by decide)).1⟩,
   ⟨by decide, ((c9_error_success_flag "" [] ⟨"", "", "", ""⟩ [] 0 ⟨"", "", ""⟩ ⟨[], []⟩ 0 0
      none ⟨[], 0, 0⟩ false Js.null).2.2.1 (by decide)).1⟩,
   ⟨by decide, ((c9_error_success_flag "" [] ⟨"", "", "", ""⟩ [] 0 ⟨"", "", ""⟩ ⟨[], []⟩ 0 0
      none ⟨[], 0, 0⟩ false Js.null).2.2.2.1 (by decide)).1⟩,
   ⟨by decide, ((c9_error_success_flag "" [] ⟨"", "", "", ""⟩ [] 0 ⟨"", "", ""⟩ ⟨[], []⟩ 0 0
      none ⟨[], 0, 0⟩ false Js.null).2.2.2.2.2 (by decide)).2⟩⟩

theorem keyCharsLe_total : ∀ a b : List Char, keyCharsLe a b = true ∨ keyCharsLe b a = true := by
  intro a
  induction a with
  | nil => intro b; exact Or.inl rfl
  | cons x xs ih =>
    intro b
    cases b with
    | nil => exact Or.inr rfl
    | cons y ys =>
      rcases lt_trichotomy x y with h | h | h
      · left
        rw [keyCharsLe]
        simp [h]
      · subst h
        rcases ih ys with h2 | h2
        · left
          rw [keyCharsLe]
          simp [lt_irrefl, h2]
        · right
          rw [keyCharsLe]
          simp [lt_irrefl, h2]
      · right
        rw [keyCharsLe]
        simp [h]

theorem keyCharsLe_trans : ∀ a b c : List Char, keyCharsLe a b = true → keyCharsLe b c = true →
    keyCharsLe a c = true := by
  intro a
  induction a with
  | nil => intro b c _ _; rfl
  | cons x xs ih =>
    intro b c hab hbc
    cases b with
    | nil => rw [keyCharsLe] at hab; cases hab
    | cons y ys =>
      cases c with
      | nil => rw [keyCharsLe] at hbc; cases hbc
      | cons z zs =>
        rw [keyCharsLe] at hab hbc ⊢
        by_cases hxy : x < y
        · by_cases hyz : y < z
          · simp [lt_trans hxy hyz]
          · by_cases hzy : z < y
            · rw [if_neg hyz, if_pos hzy] at hbc
              cases hbc
            · have he : y = z := ((lt_trichotomy y z).resolve_left hyz).resolve_right hzy
              subst he
              simp [hxy]
        · by_cases hyx : y < x
          · rw [if_neg hxy, if_pos hyx] at hab
            cases hab
          · have he : x = y := ((lt_trichotomy x y).resolve_left hxy).resolve_right hyx
            subst he
            simp only [lt_irrefl, if_false] at hab
            by_cases hxz : x < z
            · simp [hxz]
            · by_cases hzx : z < x
              · rw [if_neg hxz, if_pos hzx] at hbc
                cases hbc
              · have he2 : x = z := ((lt_trichotomy x z).resolve_left hxz).resolve_right hzx
                subst he2
                simp only [lt_irrefl, if_false] at hbc ⊢
                exact ih ys zs hab hbc

theorem keyCharsLe_antisymm : ∀ a b : List Char, keyCharsLe a b = true →
    keyCharsLe b a = true → a = b := by
  intro a
  induction a with
  | nil =>
    intro b _ hba
    cases b with
    | nil => rfl
    | cons y ys => rw [keyCharsLe] at hba; cases hba
  | cons x xs ih =>
    intro b hab hba
    cases b with
    | nil => rw [keyCharsLe] at hab; cases hab
    | cons y ys =>
      rw [keyCharsLe] at hab hba
      by_cases hxy : x < y
      · rw [if_neg (lt_asymm hxy), if_pos hxy] at hba
        cases hba
      · by_cases hyx : y < x
        · rw [if_neg hxy, if_pos hyx] at hab
          cases hab
        · have he : x = y := ((lt_trichotomy x y).resolve_left hxy).resolve_right hyx
          subst he
          simp only [lt_irrefl, if_false] at hab hba
          rw [ih ys hab hba]

theorem keyLe_total (a b : String) : keyLe a b = true ∨ keyLe b a = true :=
  keyCharsLe_total a.data b.data

theorem keyLe_trans (a b c : String) (h1 : keyLe a b = true) (h2 : keyLe b c = true) :
    keyLe a c = true :=
  keyCharsLe_trans a.data b.data c.data h1 h2

theorem keyLe_antisymm (a b : String) (h1 : keyLe a b = true) (h2 : keyLe b a = true) :
    a = b :=
  String.ext_iff.mpr (keyCharsLe_antisymm a.data b.data h1 h2)

theorem mem_insertByKey {α : Type} (key : α → String) (x a : α) (l : List α) :
    a ∈ insertByKey key x l ↔ a = x ∨ a ∈ l := by
  induction l with
  | nil => simp [insertByKey]
  | cons q qs ih =>
    rw [insertByKey]
    by_cases h : keyLe (key x) (key q) = true
    · simp [h]
    · rw [if_neg h]
      simp only [List.mem_cons, ih]
      tauto

theorem perm_insertByKey {α : Type} (key : α → String) (x : α) (l : List α) :
    (insertByKey key x l).Perm (x :: l) := by
  induction l with
  | nil => simp [insertByKey]
  | cons q qs ih =>
    rw [insertByKey]
    by_cases h : keyLe (key x) (key q) = true
    · simp [h]
    · rw [if_neg h]
      exact List.Perm.trans (List.Perm.cons q ih) (List.Perm.swap x q qs)

theorem perm_sortByKey {α : Type} (key : α → String) (l : List α) :
    (sortByKey key l).Perm l := by
  induction l with
  | nil => simp [sortByKey]
  | cons r rs ih =>
    rw [sortByKey]
    exact (perm_insertByKey key r (sortByKey key rs)).trans (List.Perm.cons r ih)

theorem sorted_insertByKey {α : Type} (key : α → String) (x : α) (l : List α)
    (h : l.Pairwise (fun p q => keyLe (key p) (key q) = true)) :
    (insertByKey key x l).Pairwise (fun p q => keyLe (key p) (key q) = true) := by
  induction l with
  | nil => simp [insertByKey]
  | cons q qs ih =>
    rw [insertByKey]
    by_cases hc : keyLe (key x) (key q) = true
    · rw [if_pos hc]
      refine List.Pairwise.cons ?_ h
      intro b hb
      rcases List.mem_cons.mp hb with rfl | hb2
      · exact hc
      · exact keyLe_trans _ _ _ hc (List.rel_of_pairwise_cons h hb2)
    · rw [if_neg hc]
      have hqs := List.pairwise_cons.mp h
      refine List.Pairwise.cons ?_ (ih hqs.2)
      intro b hb
      rcases (mem_insertByKey key x b qs).mp hb with rfl | hb2
      · exact (keyLe_total (key b) (key q)).resolve_left hc
      · exact hqs.1 b hb2

theorem sorted_sortByKey {α : Type} (key : α → String) (l : List α) :
    (sortByKey key l).Pairwise (fun p q => keyLe (key p) (key q) = true) := by
  induction l with
  | nil => exact List.Pairwise.nil
  | cons r rs ih =>
    rw [sortByKey]
    exact sorted_insertByKey key r (sortByKey key rs) ih

theorem sorted_nodup_eq {α : Type} (key : α → String) :
    ∀ l1 l2 : List α,
      l1.Pairwise (fun p q => keyLe (key p) (key q) = true) →
      l2.Pairwise (fun p q => keyLe (key p) (key q) = true) →
      (l1.map key).Nodup → (l2.map key).Nodup →
      (∀ x, x ∈ l1 ↔ x ∈ l2) → l1 = l2 := by
  intro l1
  induction l1 with
  | nil =>
    intro l2 _ _ _ _ hm
    cases l2 with
    | nil => rfl
    | cons b t2 => exact absurd ((hm b).mpr (by simp)) (by simp)
  | cons a t1 ih =>
    intro l2 h1 h2 hn1 hn2 hm
    cases l2 with
    | nil => exact absurd ((hm a).mp (by simp)) (by simp)
    | cons b t2 =>
      rw [List.map_cons] at hn1 hn2
      have hab : a = b := by
        have hal2 : a ∈ b :: t2 := (hm a).mp (by simp)
        have hbl1 : b ∈ a :: t1 := (hm b).mpr (by simp)
        rcases List.mem_cons.mp hal2 with he | hat2
        · exact he
        · rcases List.mem_cons.mp hbl1 with he | hbt1
          · exact he.symm
          · have hle1 : keyLe (key a) (key b) = true := List.rel_of_pairwise_cons h1 hbt1
            have hle2 : keyLe (key b) (key a) = true := List.rel_of_pairwise_cons h2 hat2
            have hk : key a = key b := keyLe_antisymm _ _ hle1 hle2
            have hmem : key a ∈ t2.map key := List.mem_map_of_mem key hat2
            rw [hk] at hmem
            exact absurd hmem (List.nodup_cons.mp hn2).1
      subst hab
      have hteq : ∀ x, x ∈ t1 ↔ x ∈ t2 := by
        intro x
        constructor
        · intro hx
          have hx2 : x ∈ a :: t2 := (hm x).mp (List.mem_cons_of_mem a hx)
          rcases List.mem_cons.mp hx2 with he | h
          · subst he
            exact absurd (List.mem_map_of_mem key hx) (List.nodup_cons.mp hn1).1
          · exact h
        · intro hx
          have hx2 : x ∈ a :: t1 := (hm x).mpr (List.mem_cons_of_mem a hx)
          rcases List.mem_cons.mp hx2 with he | h
          · subst he
            exact absurd (List.mem_map_of_mem key hx) (List.nodup_cons.mp hn2).1
          · exact h
      rw [ih t2 (List.pairwise_cons.mp h1).2 (List.pairwise_cons.mp h2).2
        (List.nodup_cons.mp hn1).2 (List.nodup_cons.mp hn2).2 hteq]

theorem digitChar_isDigit : ∀ k : Nat, (digitChar k).isDigit = true
  | 0 => rfl
  | 1 => rfl
  | 2 => rfl
  | 3 => rfl
  | 4 => rfl
  | 5 => rfl
  | 6 => rfl
  | 7 => rfl
  | 8 => rfl
  | _ + 9 => rfl

/-- Characters that may legally follow a complete JSON.stringify value
inside a rendered document. -/
def isTermChar (c : Char) : Bool := c == ',' || c == '}' || c == ']'

/-- Suffixes a complete rendered value can be followed by: the end of
the text or a terminator character. -/
def FollowsB : List Char → Bool
  | [] => true
  | c :: _ => isTermChar c

/-- The closing bracket of a composite rendering. -/
def isCloseChar (c : Char) : Bool := c == '}' || c == ']'

theorem isTermChar_not_digit (c : Char) (h : isTermChar c = true) : c.isDigit = false := by
  rw [isTermChar] at h
  simp only [Bool.or_eq_true, beq_iff_eq] at h
  rcases h with (h | h) | h <;> subst h <;> rfl

theorem isCloseChar_term (c : Char) (h : isCloseChar c = true) : isTermChar c = true := by
  rw [isCloseChar] at h
  simp only [Bool.or_eq_true, beq_iff_eq] at h
  rcases h with h | h <;> subst h <;> rfl

theorem isCloseChar_ne_comma (c : Char) (h : isCloseChar c = true) : c ≠ ',' := by
  rw [isCloseChar] at h
  simp only [Bool.or_eq_true, beq_iff_eq] at h
  rcases h with h | h <;> subst h <;> decide

theorem toDigitsRev_digits : ∀ fuel n : Nat, ∀ c ∈ toDigitsRev fuel n, c.isDigit = true := by
  intro fuel
  induction fuel with
  | zero => intro n c hc; cases hc
  | succ f ih =>
    intro n c hc
    rw [toDigitsRev] at hc
    by_cases hn : n = 0
    · rw [if_pos hn] at hc
      cases hc
    · rw [if_neg hn] at hc
      rcases List.mem_cons.mp hc with rfl | hc2
      · exact digitChar_isDigit _
      · exact ih _ c hc2

theorem encNat_digits (n : Nat) : ∀ c ∈ encNat n, c.isDigit = true := by
  intro c hc
  rw [encNat] at hc
  by_cases hn : n = 0
  · rw [if_pos hn] at hc
    rcases List.mem_singleton.mp hc with rfl
    rfl
  · rw [if_neg hn] at hc
    exact toDigitsRev_digits n n c (List.mem_reverse.mp hc)

theorem encNat_ne_nil (n : Nat) : encNat n ≠ [] := by
  rw [encNat]
  by_cases hn : n = 0
  · rw [if_pos hn]
    simp
  · rw [if_neg hn]
    simp only [ne_eq, List.reverse_eq_nil_iff]
    cases n with
    | zero => exact absurd rfl hn
    | succ m =>
      rw [toDigitsRev]
      rw [if_neg hn]
      simp

theorem digits_peel : ∀ d1 d2 r1 r2 : List Char,
    (∀ c ∈ d1, c.isDigit = true) → (∀ c ∈ d2, c.isDigit = true) →
    FollowsB r1 = true → FollowsB r2 = true →
    d1 ++ r1 = d2 ++ r2 → d1 = d2 := by
  intro d1
  induction d1 with
  | nil =>
    intro d2 r1 r2 _ hd2 hf1 _ h
    cases d2 with
    | nil => rfl
    | cons c t =>
      exfalso
      rw [List.nil_append, List.cons_append] at h
      rw [h] at hf1
      have ht : isTermChar c = true := hf1
      have h1 : c.isDigit = false := isTermChar_not_digit c ht
      have h2 : c.isDigit = true := hd2 c (by simp)
      rw [h1] at h2
      cases h2
  | cons c1 t1 ih =>
    intro d2 r1 r2 hd1 hd2 hf1 hf2 h
    cases d2 with
    | nil =>
      exfalso
      rw [List.nil_append, List.cons_append] at h
      rw [← h] at hf2
      have ht : isTermChar c1 = true := hf2
      have h1 : c1.isDigit = false := isTermChar_not_digit c1 ht
      have h2 : c1.isDigit = true := hd1 c1 (by simp)
      rw [h1] at h2
      cases h2
    | cons c2 t2 =>
      rw [List.cons_append, List.cons_append] at h
      injection h with hc ht
      subst hc
      rw [ih t2 r1 r2 (fun c hc => hd1 c (by simp [hc])) (fun c hc => hd2 c (by simp [hc]))
        hf1 hf2 ht]

theorem encInt_peel (i j : Int) (r1 r2 : List Char) (hf1 : FollowsB r1 = true)
    (hf2 : FollowsB r2 = true) (h : encInt i ++ r1 = encInt j ++ r2) :
    encInt i = encInt j := by
  rw [encInt, encInt] at h ⊢
  by_cases hi : i < 0
  · by_cases hj : j < 0
    · rw [if_pos hi, if_pos hj] at h ⊢
      rw [List.cons_append, List.cons_append] at h
      injection h with _ ht
      rw [digits_peel (encNat i.natAbs) (encNat j.natAbs) r1 r2 (encNat_digits _)
        (encNat_digits _) hf1 hf2 ht]
    · exfalso
      rw [if_pos hi, if_neg hj] at h
      obtain ⟨c, t, he⟩ := List.exists_cons_of_ne_nil (encNat_ne_nil j.natAbs)
      rw [he, List.cons_append, List.cons_append] at h
      injection h with hc _
      have h2 : c.isDigit = true := encNat_digits j.natAbs c (by rw [he]; simp)
      rw [← hc] at h2
      cases h2
  · by_cases hj : j < 0
    · exfalso
      rw [if_neg hi, if_pos hj] at h
      obtain ⟨c, t, he⟩ := List.exists_cons_of_ne_nil (encNat_ne_nil i.natAbs)
      rw [he, List.cons_append, List.cons_append] at h
      injection h with hc _
      have h2 : c.isDigit = true := encNat_digits i.natAbs c (by rw [he]; simp)
      rw [hc] at h2
      cases h2
    · rw [if_neg hi, if_neg hj] at h ⊢
      exact digits_peel (encNat i.natAbs) (encNat j.natAbs) r1 r2 (encNat_digits _)
        (encNat_digits _) hf1 hf2 h

theorem escChars_cons (c : Char) (cs : List Char) :
    escChars (c :: cs) = escChar c ++ escChars cs := rfl

theorem escChars_peel : ∀ xs ys r1 r2 : List Char,
    escChars xs ++ '"' :: r1 = escChars ys ++ '"' :: r2 → xs = ys ∧ r1 = r2 := by
  intro xs
  induction xs with
  | nil =>
    intro ys r1 r2 h
    cases ys with
    | nil =>
      have h2 : '"' :: r1 = '"' :: r2 := h
      injection h2 with _ h3
      exact ⟨rfl, h3⟩
    | cons y t =>
      exfalso
      rw [show escChars ([] : List Char) = [] from rfl, escChars_cons, List.nil_append,
        List.append_assoc] at h
      by_cases hy : y = '"' ∨ y = '\\'
      · rw [escChar, if_pos hy, List.cons_append, List.cons_append] at h
        injection h with hc _
        exact absurd hc (by decide)
      · rw [escChar, if_neg hy, List.cons_append, List.nil_append] at h
        injection h with hc _
        exact hy (Or.inl hc.symm)
  | cons x txs ih =>
    intro ys r1 r2 h
    cases ys with
    | nil =>
      exfalso
      rw [show escChars ([] : List Char) = [] from rfl, escChars_cons, List.nil_append,
        List.append_assoc] at h
      by_cases hx : x = '"' ∨ x = '\\'
      · rw [escChar, if_pos hx, List.cons_append, List.cons_append] at h
        injection h with hc _
        exact absurd hc (by decide)
      · rw [escChar, if_neg hx, List.cons_append, List.nil_append] at h
        injection h with hc _
        exact hx (Or.inl hc)
    | cons y tys =>
      rw [escChars_cons, escChars_cons, List.append_assoc, List.append_assoc] at h
      by_cases hx : x = '"' ∨ x = '\\'
      · by_cases hy : y = '"' ∨ y = '\\'
        · rw [escChar, if_pos hx, escChar, if_pos hy] at h
          rw [List.cons_append, List.cons_append, List.cons_append, List.cons_append] at h
          injection h with _ h2
          injection h2 with hc h3
          subst hc
          obtain ⟨hd, hr⟩ := ih tys r1 r2 h3
          exact ⟨by rw [hd], hr⟩
        · exfalso
          rw [escChar, if_pos hx, escChar, if_neg hy] at h
          rw [List.cons_append, List.cons_append, List.cons_append, List.nil_append] at h
          injection h with hc _
          exact hy (Or.inr hc.symm)
      · by_cases hy : y = '"' ∨ y = '\\'
        · exfalso
          rw [escChar, if_neg hx, escChar, if_pos hy] at h
          rw [List.cons_append, List.nil_append, List.cons_append, List.cons_append] at h
          injection h with hc _
          exact hx (Or.inr hc)
        · rw [escChar, if_neg hx, escChar, if_neg hy] at h
          rw [List.cons_append, List.nil_append, List.cons_append, List.nil_append] at h
          injection h with hc h2
          subst hc
          obtain ⟨hd, hr⟩ := ih tys r1 r2 h2
          exact ⟨by rw [hd], hr⟩

theorem jsonQuote_peel (s t : String) (r1 r2 : List Char)
    (h : jsonQuote s ++ r1 = jsonQuote t ++ r2) : s = t ∧ r1 = r2 := by
  rw [jsonQuote, jsonQuote, List.cons_append, List.cons_append] at h
  injection h with _ h2
  simp only [List.append_eq] at h2
  rw [List.append_assoc, List.append_assoc] at h2
  have h3 : escChars s.data ++ '"' :: r1 = escChars t.data ++ '"' :: r2 := h2
  obtain ⟨hd, hr⟩ := escChars_peel s.data t.data r1 r2 h3
  exact ⟨String.ext_iff.mpr hd, hr⟩

/-- Constructor class of a Js value, matched below against the first
character of its rendering. -/
def jsKind : Js → Nat
  | .null => 0
  | .bool true => 1
  | .bool false => 2
  | .num _ => 3
  | .str _ => 4
  | .arr _ => 5
  | .obj _ => 6

/-- Constructor class determined by the first rendered character. -/
def startKindC (c : Char) : Nat :=
  if c = 'n' then 0 else if c = 't' then 1 else if c = 'f' then 2
  else if c = '"' then 4 else if c = '[' then 5 else if c = '{' then 6 else 3

theorem startKindC_digit (c : Char) (h : c.isDigit = true) : startKindC c = 3 := by
  have h1 : c ≠ 'n' := by intro he; rw [he] at h; exact absurd h (by decide)
  have h2 : c ≠ 't' := by intro he; rw [he] at h; exact absurd h (by decide)
  have h3 : c ≠ 'f' := by intro he; rw [he] at h; exact absurd h (by decide)
  have h4 : c ≠ '"' := by intro he; rw [he] at h; exact absurd h (by decide)
  have h5 : c ≠ '[' := by intro he; rw [he] at h; exact absurd h (by decide)
  have h6 : c ≠ '{' := by intro he; rw [he] at h; exact absurd h (by decide)
  rw [startKindC, if_neg h1, if_neg h2, if_neg h3, if_neg h4, if_neg h5, if_neg h6]

theorem digit_not_term (c : Char) (h : c.isDigit = true) : isTermChar c = false := by
  cases ht : isTermChar c
  · rfl
  · rw [isTermChar_not_digit c ht] at h
    cases h

theorem enc_head : ∀ v : Js, ∃ c t, stableStringifyChars v = c :: t ∧
    startKindC c = jsKind v ∧ isTermChar c = false := by
  intro v
  cases v with
  | null => exact ⟨'n', _, rfl, rfl, rfl⟩
  | bool b =>
    cases b with
    | true => exact ⟨'t', _, rfl, rfl, rfl⟩
    | false => exact ⟨'f', _, rfl, rfl, rfl⟩
  | num i =>
    by_cases hi : i < 0
    · refine ⟨'-', encNat i.natAbs, ?_, rfl, rfl⟩
      show encInt i = _
      rw [encInt, if_pos hi]
    · obtain ⟨c, t, he⟩ := List.exists_cons_of_ne_nil (encNat_ne_nil i.natAbs)
      have hd : c.isDigit = true := encNat_digits i.natAbs c (by rw [he]; simp)
      refine ⟨c, t, ?_, ?_, digit_not_term c hd⟩
      · show encInt i = c :: t
        rw [encInt, if_neg hi]
        exact he
      · rw [startKindC_digit c hd]
        rfl
  | str s => exact ⟨'"', _, rfl, rfl, rfl⟩
  | arr xs => exact ⟨'[', _, rfl, rfl, rfl⟩
  | obj fs => exact ⟨'{', _, rfl, rfl, rfl⟩

theorem mem_stringifyList : ∀ xs : JsList, ∀ p ∈ stableStringifyList xs,
    ∃ u : Js, p = stableStringifyChars u ∧ jsSize u ≤ jsListSize xs
  | JsList.nil => by intro p h; cases h
  | JsList.cons v t => by
    intro p h
    rw [stableStringifyList] at h
    rcases List.mem_cons.mp h with rfl | h2
    · exact ⟨v, rfl, by rw [jsListSize]; omega⟩
    · obtain ⟨u, he, hb⟩ := mem_stringifyList t p h2
      exact ⟨u, he, by rw [jsListSize]; omega⟩

theorem mem_stringifyFields : ∀ fs : JsFields, ∀ pr ∈ stableStringifyFields fs,
    ∃ k u, pr = (k, jsonQuote k ++ ':' :: stableStringifyChars u) ∧
      jsSize u ≤ jsFieldsSize fs
  | JsFields.nil => by intro pr h; cases h
  | JsFields.cons k v t => by
    intro pr h
    rw [stableStringifyFields] at h
    rcases List.mem_cons.mp h with rfl | h2
    · exact ⟨k, v, rfl, by rw [jsFieldsSize]; omega⟩
    · obtain ⟨k2, u, he, hb⟩ := mem_stringifyFields t pr h2
      exact ⟨k2, u, he, by rw [jsFieldsSize]; omega⟩

theorem joinC_peel (P1 P2 : List Char → Prop)
    (hpeel : ∀ p q r1 r2, P1 p → P2 q → FollowsB r1 = true → FollowsB r2 = true →
      p ++ r1 = q ++ r2 → p = q)
    (hhead1 : ∀ p, P1 p → ∃ c t, p = c :: t ∧ isTermChar c = false)
    (hhead2 : ∀ q, P2 q → ∃ c t, q = c :: t ∧ isTermChar c = false) :
    ∀ l1 l2 : List (List Char), (∀ p ∈ l1, P1 p) → (∀ q ∈ l2, P2 q) →
      ∀ c1 c2 : Char, ∀ r1 r2 : List Char, isCloseChar c1 = true → isCloseChar c2 = true →
      joinC l1 ++ c1 :: r1 = joinC l2 ++ c2 :: r2 →
      l1 = l2 ∧ c1 :: r1 = c2 :: r2 := by
  intro l1
  induction l1 with
  | nil =>
    intro l2 h1 h2 c1 c2 r1 r2 hc1 hc2 h
    cases l2 with
    | nil => exact ⟨rfl, h⟩
    | cons q t2 =>
      exfalso
      obtain ⟨c, t, hq, hterm⟩ := hhead2 q (h2 q (by simp))
      have hhead : ∃ rest, joinC (q :: t2) ++ c2 :: r2 = c :: rest := by
        cases t2 with
        | nil =>
          refine ⟨t ++ c2 :: r2, ?_⟩
          rw [show joinC [q] = q from rfl, hq, List.cons_append]
        | cons q2 t3 =>
          refine ⟨(t ++ ',' :: joinC (q2 :: t3)) ++ c2 :: r2, ?_⟩
          rw [show joinC (q :: q2 :: t3) = q ++ ',' :: joinC (q2 :: t3) from rfl, hq]
          rw [List.cons_append, List.cons_append]
      obtain ⟨rest, hr⟩ := hhead
      rw [hr] at h
      have h2b : c1 :: r1 = c :: rest := h
      injection h2b with hc _
      rw [← hc] at hterm
      rw [isCloseChar_term c1 hc1] at hterm
      cases hterm
  | cons p t1 ih =>
    intro l2 h1 h2 c1 c2 r1 r2 hc1 hc2 h
    cases l2 with
    | nil =>
      exfalso
      obtain ⟨c, t, hp, hterm⟩ := hhead1 p (h1 p (by simp))
      have hhead : ∃ rest, joinC (p :: t1) ++ c1 :: r1 = c :: rest := by
        cases t1 with
        | nil =>
          refine ⟨t ++ c1 :: r1, ?_⟩
          rw [show joinC [p] = p from rfl, hp, List.cons_append]
        | cons p2 t3 =>
          refine ⟨(t ++ ',' :: joinC (p2 :: t3)) ++ c1 :: r1, ?_⟩
          rw [show joinC (p :: p2 :: t3) = p ++ ',' :: joinC (p2 :: t3) from rfl, hp]
          rw [List.cons_append, List.cons_append]
      obtain ⟨rest, hr⟩ := hhead
      rw [hr] at h
      have h2b : c :: rest = c2 :: r2 := h
      injection h2b with hc _
      rw [hc] at hterm
      rw [isCloseChar_term c2 hc2] at hterm
      cases hterm
    | cons q t2 =>
      cases t1 with
      | nil =>
        cases t2 with
        | nil =>
          have h' : p ++ c1 :: r1 = q ++ c2 :: r2 := h
          have hp : p = q := hpeel p q (c1 :: r1) (c2 :: r2) (h1 p (by simp))
            (h2 q (by simp))
            (show isTermChar c1 = true from isCloseChar_term c1 hc1)
            (show isTermChar c2 = true from isCloseChar_term c2 hc2) h'
          have hr := List.append_cancel_left (hp ▸ h')
          exact ⟨by rw [hp], hr⟩
        | cons q2 t3 =>
          exfalso
          have h' : p ++ c1 :: r1 = q ++ ',' :: (joinC (q2 :: t3) ++ c2 :: r2) := by
            rw [show joinC (q :: q2 :: t3) = q ++ ',' :: joinC (q2 :: t3) from rfl,
              List.append_assoc] at h
            exact h
          have hp : p = q := hpeel p q (c1 :: r1) (',' :: (joinC (q2 :: t3) ++ c2 :: r2))
            (h1 p (by simp)) (h2 q (by simp))
            (show isTermChar c1 = true from isCloseChar_term c1 hc1) rfl h'
          have hr := List.append_cancel_left (hp ▸ h')
          injection hr with hc _
          exact isCloseChar_ne_comma c1 hc1 hc
      | cons p2 t3 =>
        cases t2 with
        | nil =>
          exfalso
          have h' : p ++ ',' :: (joinC (p2 :: t3) ++ c1 :: r1) = q ++ c2 :: r2 := by
            rw [show joinC (p :: p2 :: t3) = p ++ ',' :: joinC (p2 :: t3) from rfl,
              List.append_assoc] at h
            exact h
          have hp : p = q := hpeel p q (',' :: (joinC (p2 :: t3) ++ c1 :: r1)) (c2 :: r2)
            (h1 p (by simp)) (h2 q (by simp)) rfl
            (show isTermChar c2 = true from isCloseChar_term c2 hc2) h'
          have hr := List.append_cancel_left (hp ▸ h')
          injection hr with hc _
          exact isCloseChar_ne_comma c2 hc2 hc.symm
        | cons q2 t4 =>
          have h' : p ++ ',' :: (joinC (p2 :: t3) ++ c1 :: r1)
              = q ++ ',' :: (joinC (q2 :: t4) ++ c2 :: r2) := by
            rw [show joinC (p :: p2 :: t3) = p ++ ',' :: joinC (p2 :: t3) from rfl,
              show joinC (q :: q2 :: t4) = q ++ ',' :: joinC (q2 :: t4) from rfl,
              List.append_assoc, List.append_assoc] at h
            exact h
          have hp : p = q := hpeel p q (',' :: (joinC (p2 :: t3) ++ c1 :: r1))
            (',' :: (joinC (q2 :: t4) ++ c2 :: r2))
            (h1 p (by simp)) (h2 q (by simp)) rfl rfl h'
          have hr := List.append_cancel_left (hp ▸ h')
          injection hr with _ hr2
          obtain ⟨hte, hce⟩ := ih (q2 :: t4) (fun x hx => h1 x (by simp [hx]))
            (fun x hx => h2 x (by simp [hx])) c1 c2 r1 r2 hc1 hc2 hr2
          exact ⟨by rw [hp, hte], hce⟩

theorem stringify_peel : ∀ n : Nat,
    ∀ v w : Js, jsSize v ≤ n → ∀ r1 r2 : List Char,
      FollowsB r1 = true → FollowsB r2 = true →
      stableStringifyChars v ++ r1 = stableStringifyChars w ++ r2 →
      stableStringifyChars v = stableStringifyChars w := by
  intro n
  induction n using Nat.strong_induction_on with
  | _ n ih =>
    intro v w hsize r1 r2 hf1 hf2 h
    obtain ⟨c1, t1, hv, hk1, hterm1⟩ := enc_head v
    obtain ⟨c2, t2, hw, hk2, hterm2⟩ := enc_head w
    have hkind : jsKind v = jsKind w := by
      have h0 := h
      rw [hv, hw, List.cons_append, List.cons_append] at h0
      injection h0 with hc _
      rw [← hk1, ← hk2, hc]
    clear hv hw hk1 hk2 hterm1 hterm2
    cases v with
    | null =>
      cases w with
      | null => rfl
      | bool b => cases b <;> simp [jsKind] at hkind
      | num j => simp [jsKind] at hkind
      | str t => simp [jsKind] at hkind
      | arr ys => simp [jsKind] at hkind
      | obj gs => simp [jsKind] at hkind
    | bool b =>
      cases w with
      | null => cases b <;> simp [jsKind] at hkind
      | bool b2 => cases b <;> cases b2 <;> first | rfl | simp [jsKind] at hkind
      | num j => cases b <;> simp [jsKind] at hkind
      | str t => cases b <;> simp [jsKind] at hkind
      | arr ys => cases b <;> simp [jsKind] at hkind
      | obj gs => cases b <;> simp [jsKind] at hkind
    | num i =>
      cases w with
      | null => simp [jsKind] at hkind
      | bool b => cases b <;> simp [jsKind] at hkind
      | num j =>
        show encInt i = encInt j
        exact encInt_peel i j r1 r2 hf1 hf2 h
      | str t => simp [jsKind] at hkind
      | arr ys => simp [jsKind] at hkind
      | obj gs => simp [jsKind] at hkind
    | str s =>
      cases w with
      | null => simp [jsKind] at hkind
      | bool b => cases b <;> simp [jsKind] at hkind
      | num j => simp [jsKind] at hkind
      | str t =>
        show jsonQuote s = jsonQuote t
        obtain ⟨hst, _⟩ := jsonQuote_peel s t r1 r2 h
        rw [hst]
      | arr ys => simp [jsKind] at hkind
      | obj gs => simp [jsKind] at hkind
    | arr xs =>
      cases w with
      | null => simp [jsKind] at hkind
      | bool b => cases b <;> simp [jsKind] at hkind
      | num j => simp [jsKind] at hkind
      | str t => simp [jsKind] at hkind
      | obj gs => simp [jsKind] at hkind
      | arr ys =>
        have hsz2 : 1 + jsListSize xs ≤ n := hsize
        have hn1 : n - 1 < n := by omega
        have h' : joinC (stableStringifyList xs) ++ ']' :: r1
            = joinC (stableStringifyList ys) ++ ']' :: r2 := by
          have h2 : ('[' :: (joinC (stableStringifyList xs) ++ [']'])) ++ r1
              = ('[' :: (joinC (stableStringifyList ys) ++ [']'])) ++ r2 := h
          rw [List.cons_append, List.cons_append, List.append_assoc,
            List.append_assoc] at h2
          injection h2
        have hpeelA : ∀ p q r1 r2 : List Char,
            (∃ u : Js, p = stableStringifyChars u ∧ jsSize u ≤ n - 1) →
            (∃ u : Js, q = stableStringifyChars u) →
            FollowsB r1 = true → FollowsB r2 = true → p ++ r1 = q ++ r2 → p = q := by
          rintro p q a1 a2 ⟨u1, rfl, hb⟩ ⟨u2, rfl⟩ hfa1 hfa2 heq
          exact ih (n - 1) hn1 u1 u2 hb a1 a2 hfa1 hfa2 heq
        have hheadA1 : ∀ p : List Char,
            (∃ u : Js, p = stableStringifyChars u ∧ jsSize u ≤ n - 1) →
            ∃ c t, p = c :: t ∧ isTermChar c = false := by
          rintro p ⟨u, rfl, _⟩
          obtain ⟨c, t, he, _, hterm⟩ := enc_head u
          exact ⟨c, t, he, hterm⟩
        have hheadA2 : ∀ q : List Char, (∃ u : Js, q = stableStringifyChars u) →
            ∃ c t, q = c :: t ∧ isTermChar c = false := by
          rintro q ⟨u, rfl⟩
          obtain ⟨c, t, he, _, hterm⟩ := enc_head u
          exact ⟨c, t, he, hterm⟩
        have hm1 : ∀ p ∈ stableStringifyList xs,
            ∃ u : Js, p = stableStringifyChars u ∧ jsSize u ≤ n - 1 := by
          intro p hp
          obtain ⟨u, he, hb⟩ := mem_stringifyList xs p hp
          exact ⟨u, he, by omega⟩
        have hm2 : ∀ q ∈ stableStringifyList ys, ∃ u : Js, q = stableStringifyChars u := by
          intro q hq
          obtain ⟨u, he, _⟩ := mem_stringifyList ys q hq
          exact ⟨u, he⟩
        obtain ⟨hle, _⟩ := joinC_peel _ _ hpeelA hheadA1 hheadA2
          (stableStringifyList xs) (stableStringifyList ys) hm1 hm2 ']' ']' r1 r2 rfl rfl h'
        show '[' :: (joinC (stableStringifyList xs) ++ [']'])
          = '[' :: (joinC (stableStringifyList ys) ++ [']'])
        rw [hle]
    | obj fs =>
      cases w with
      | null => simp [jsKind] at hkind
      | bool b => cases b <;> simp [jsKind] at hkind
      | num j => simp [jsKind] at hkind
      | str t => simp [jsKind] at hkind
      | arr ys => simp [jsKind] at hkind
      | obj gs =>
        have hsz2 : 1 + jsFieldsSize fs ≤ n := hsize
        have hn1 : n - 1 < n := by omega
        have h' : joinC ((sortByKey Prod.fst (stableStringifyFields fs)).map Prod.snd)
              ++ '}' :: r1
            = joinC ((sortByKey Prod.fst (stableStringifyFields gs)).map Prod.snd)
              ++ '}' :: r2 := by
          have h2 : ('{' :: (joinC ((sortByKey Prod.fst
                  (stableStringifyFields fs)).map Prod.snd) ++ ['}'])) ++ r1
              = ('{' :: (joinC ((sortByKey Prod.fst
                  (stableStringifyFields gs)).map Prod.snd) ++ ['}'])) ++ r2 := h
          rw [List.cons_append, List.cons_append, List.append_assoc,
            List.append_assoc] at h2
          injection h2
        have hpeelF : ∀ p q r1 r2 : List Char,
            (∃ (k : String) (u : Js), p = jsonQuote k ++ ':' :: stableStringifyChars u ∧
              jsSize u ≤ n - 1) →
            (∃ (k : String) (u : Js), q = jsonQuote k ++ ':' :: stableStringifyChars u) →
            FollowsB r1 = true → FollowsB r2 = true → p ++ r1 = q ++ r2 → p = q := by
          rintro p q a1 a2 ⟨k1, u1, rfl, hb⟩ ⟨k2, u2, rfl⟩ hfa1 hfa2 heq
          rw [List.append_assoc, List.append_assoc] at heq
          obtain ⟨hk, hrest⟩ := jsonQuote_peel k1 k2 _ _ heq
          have hrest2 : ':' :: (stableStringifyChars u1 ++ a1)
              = ':' :: (stableStringifyChars u2 ++ a2) := hrest
          injection hrest2 with _ h3
          have hu : stableStringifyChars u1 = stableStringifyChars u2 :=
            ih (n - 1) hn1 u1 u2 hb a1 a2 hfa1 hfa2 h3
          rw [hk, hu]
        have hheadF1 : ∀ p : List Char,
            (∃ (k : String) (u : Js), p = jsonQuote k ++ ':' :: stableStringifyChars u ∧
              jsSize u ≤ n - 1) →
            ∃ c t, p = c :: t ∧ isTermChar c = false := by
          rintro p ⟨k, u, rfl, _⟩
          exact ⟨'"', (escChars k.data ++ ['"']) ++ ':' :: stableStringifyChars u, rfl, rfl⟩
        have hheadF2 : ∀ q : List Char,
            (∃ (k : String) (u : Js), q = jsonQuote k ++ ':' :: stableStringifyChars u) →
            ∃ c t, q = c :: t ∧ isTermChar c = false := by
          rintro q ⟨k, u, rfl⟩
          exact ⟨'"', (escChars k.data ++ ['"']) ++ ':' :: stableStringifyChars u, rfl, rfl⟩
        have hm1 : ∀ p ∈ (sortByKey Prod.fst (stableStringifyFields fs)).map Prod.snd,
            ∃ (k : String) (u : Js), p = jsonQuote k ++ ':' :: stableStringifyChars u ∧
              jsSize u ≤ n - 1 := by
          intro p hp
          rcases List.mem_map.mp hp with ⟨pr, hpr, rfl⟩
          have hpr2 : pr ∈ stableStringifyFields fs :=
            (perm_sortByKey Prod.fst _).mem_iff.mp hpr
          obtain ⟨k, u, he, hb⟩ := mem_stringifyFields fs pr hpr2
          exact ⟨k, u, by rw [he], by omega⟩
        have hm2 : ∀ q ∈ (sortByKey Prod.fst (stableStringifyFields gs)).map Prod.snd,
            ∃ (k : String) (u : Js), q = jsonQuote k ++ ':' :: stableStringifyChars u := by
          intro q hq
          rcases List.mem_map.mp hq with ⟨pr, hpr, rfl⟩
          have hpr2 : pr ∈ stableStringifyFields gs :=
            (perm_sortByKey Prod.fst _).mem_iff.mp hpr
          obtain ⟨k, u, he, _⟩ := mem_stringifyFields gs pr hpr2
          exact ⟨k, u, by rw [he]⟩
        obtain ⟨hle, _⟩ := joinC_peel _ _ hpeelF hheadF1 hheadF2
          ((sortByKey Prod.fst (stableStringifyFields fs)).map Prod.snd)
          ((sortByKey Prod.fst (stableStringifyFields gs)).map Prod.snd)
          hm1 hm2 '}' '}' r1 r2 rfl rfl h'
        show '{' :: (joinC ((sortByKey Prod.fst (stableStringifyFields fs)).map Prod.snd)
            ++ ['}'])
          = '{' :: (joinC ((sortByKey Prod.fst (stableStringifyFields gs)).map Prod.snd)
            ++ ['}'])
        rw [hle]

theorem jlookup_eq_none_iff (k : String) : ∀ l : List (String × Js),
    jlookup k l = none ↔ k ∉ l.map Prod.fst := by
  intro l
  induction l with
  | nil => simp [jlookup]
  | cons p t ih =>
    obtain ⟨k2, w⟩ := p
    rw [jlookup]
    by_cases h : k2 = k
    · subst h
      simp
    · simp only [List.map_cons, List.mem_cons]
      rw [if_neg h, ih]
      constructor
      · intro h2 hc
        rcases hc with hc | hc
        · exact h hc.symm
        · exact h2 hc
      · intro h2 hc
        exact h2 (Or.inr hc)

theorem jlookup_eq_some_iff (k : String) (v : Js) : ∀ l : List (String × Js),
    (l.map Prod.fst).Nodup → (jlookup k l = some v ↔ (k, v) ∈ l) := by
  intro l
  induction l with
  | nil => simp [jlookup]
  | cons p t ih =>
    intro hn
    obtain ⟨k2, w⟩ := p
    rw [List.map_cons] at hn
    obtain ⟨hk2, hnt⟩ := List.nodup_cons.mp hn
    rw [jlookup]
    by_cases h : k2 = k
    · subst h
      rw [if_pos rfl]
      constructor
      · intro h2
        injection h2 with h3
        subst h3
        exact List.mem_cons_self _ _
      · intro h2
        rcases List.mem_cons.mp h2 with h3 | h3
        · injection h3 with h4 h5
          rw [h5]
        · exact absurd (List.mem_map_of_mem Prod.fst h3) hk2
    · rw [if_neg h, ih hnt]
      constructor
      · intro h2
        exact List.mem_cons_of_mem _ h2
      · intro h2
        rcases List.mem_cons.mp h2 with h3 | h3
        · injection h3 with h4 h5
          exact absurd h4.symm h
        · exact h3

theorem mem_unionKeys (bs cs : List (String × Js)) (k : String) :
    k ∈ unionKeys bs cs ↔ k ∈ bs.map Prod.fst ∨ k ∈ cs.map Prod.fst := by
  rw [unionKeys]
  rw [List.mem_append]
  constructor
  · intro h
    rcases h with h | h
    · exact Or.inl h
    · exact Or.inr (List.mem_of_mem_filter h)
  · intro h
    rcases h with h | h
    · exact Or.inl h
    · by_cases hb : k ∈ bs.map Prod.fst
      · exact Or.inl hb
      · refine Or.inr (List.mem_filter.mpr ⟨h, ?_⟩)
        simp only [decide_eq_true_eq]
        intro hc
        have : k ∈ bs.map Prod.fst := by
          have h2 : List.elem k (bs.map Prod.fst) = true := hc
          rw [List.elem_eq_mem] at h2
          exact of_decide_eq_true h2
        exact hb this

/-- The rendered entry of one field, exactly as stableStringify lays it
out. -/
def renderField (p : String × Js) : String × List Char :=
  (p.1, jsonQuote p.1 ++ ':' :: stableStringifyChars p.2)

theorem stringifyFields_map : ∀ fs : JsFields,
    stableStringifyFields fs = fs.toList.map renderField
  | JsFields.nil => rfl
  | JsFields.cons k v t => by
    rw [stableStringifyFields, JsFields.toList, List.map_cons, stringifyFields_map t]
    rfl

theorem stringify_objL (bs : List (String × Js)) :
    stableStringifyChars (Js.objL bs)
      = '{' :: joinC ((sortByKey Prod.fst (bs.map renderField)).map Prod.snd) ++ ['}'] := by
  show '{' :: joinC ((sortByKey Prod.fst
      (stableStringifyFields (JsFields.ofList bs))).map Prod.snd) ++ ['}'] = _
  rw [stringifyFields_map, jsFieldsToList_ofList]

theorem nodup_keys_sortByKey {α : Type} (key : α → String) (l : List α)
    (h : (l.map key).Nodup) : ((sortByKey key l).map key).Nodup :=
  ((perm_sortByKey key l).map key).nodup_iff.mpr h

theorem renderField_fst (bs : List (String × Js)) :
    (bs.map renderField).map Prod.fst = bs.map Prod.fst := by
  rw [List.map_map]
  exact List.map_congr_left (fun p _ => rfl)

theorem pairs_eq_of_snd_eq :
    ∀ l1 l2 : List (String × List Char),
      (∀ p ∈ l1, ∃ u : Js, p.2 = jsonQuote p.1 ++ ':' :: stableStringifyChars u) →
      (∀ p ∈ l2, ∃ u : Js, p.2 = jsonQuote p.1 ++ ':' :: stableStringifyChars u) →
      l1.map Prod.snd = l2.map Prod.snd → l1 = l2 := by
  intro l1
  induction l1 with
  | nil =>
    intro l2 _ _ h
    cases l2 with
    | nil => rfl
    | cons q t2 => cases h
  | cons p t1 ih =>
    intro l2 h1 h2 h
    cases l2 with
    | nil => cases h
    | cons q t2 =>
      rw [List.map_cons, List.map_cons] at h
      injection h with hh ht
      obtain ⟨u1, hu1⟩ := h1 p (by simp)
      obtain ⟨u2, hu2⟩ := h2 q (by simp)
      have hkk : p.1 = q.1 := by
        rw [hu1, hu2] at hh
        exact (jsonQuote_peel p.1 q.1 _ _ hh).1
      have hpq : p = q := by
        obtain ⟨pk, ps⟩ := p
        obtain ⟨qk, qs⟩ := q
        simp only at hkk hh
        rw [hkk, hh]
      rw [hpq, ih t2 (fun x hx => h1 x (by simp [hx])) (fun x hx => h2 x (by simp [hx])) ht]

theorem asString_inj (l1 l2 : List Char) (h : l1.asString = l2.asString) : l1 = l2 :=
  String.ext_iff.mp h

theorem optStringify_some_eq (o1 o2 : Option Js) (v : Js)
    (h1 : o1 = some v) (h : optStringify o1 = optStringify o2) :
    ∃ w, o2 = some w ∧ stableStringify w = stableStringify v := by
  rw [optStringify, optStringify, h1] at h
  cases o2 with
  | none => exact absurd (show some (stableStringify v) = none from h) (Option.some_ne_none _)
  | some w =>
    refine ⟨w, rfl, ?_⟩
    have h2 : some (stableStringify v) = some (stableStringify w) := h
    injection h2 with h3
    exact h3.symm

theorem stableStringify_objL_eq_iff (bs cs : List (String × Js))
    (hbn : (bs.map Prod.fst).Nodup) (hcn : (cs.map Prod.fst).Nodup) :
    stableStringify (Js.objL bs) = stableStringify (Js.objL cs) ↔
    ∀ k : String, optStringify (jlookup k bs) = optStringify (jlookup k cs) := by
  have hSF1 : stableStringifyFields (JsFields.ofList bs) = bs.map renderField := by
    rw [stringifyFields_map, jsFieldsToList_ofList]
  have hSF2 : stableStringifyFields (JsFields.ofList cs) = cs.map renderField := by
    rw [stringifyFields_map, jsFieldsToList_ofList]
  constructor
  · intro h
    have hchars : stableStringifyChars (Js.objL bs) = stableStringifyChars (Js.objL cs) :=
      asString_inj _ _ h
    have hJ : joinC ((sortByKey Prod.fst
          (stableStringifyFields (JsFields.ofList bs))).map Prod.snd) ++ '}' :: []
        = joinC ((sortByKey Prod.fst
          (stableStringifyFields (JsFields.ofList cs))).map Prod.snd) ++ '}' :: [] := by
      have h2 : '{' :: (joinC ((sortByKey Prod.fst
            (stableStringifyFields (JsFields.ofList bs))).map Prod.snd) ++ ['}'])
          = '{' :: (joinC ((sortByKey Prod.fst
            (stableStringifyFields (JsFields.ofList cs))).map Prod.snd) ++ ['}']) := hchars
      injection h2
    have hpeelF : ∀ p q r1 r2 : List Char,
        (∃ (k : String) (u : Js), p = jsonQuote k ++ ':' :: stableStringifyChars u ∧
          jsSize u ≤ jsFieldsSize (JsFields.ofList bs)) →
        (∃ (k : String) (u : Js), q = jsonQuote k ++ ':' :: stableStringifyChars u) →
        FollowsB r1 = true → FollowsB r2 = true → p ++ r1 = q ++ r2 → p = q := by
      rintro p q a1 a2 ⟨k1, u1, rfl, hbd⟩ ⟨k2, u2, rfl⟩ hfa1 hfa2 heq
      rw [List.append_assoc, List.append_assoc] at heq
      obtain ⟨hk, hrest⟩ := jsonQuote_peel k1 k2 _ _ heq
      have hrest2 : ':' :: (stableStringifyChars u1 ++ a1)
          = ':' :: (stableStringifyChars u2 ++ a2) := hrest
      injection hrest2 with _ h3
      have hu : stableStringifyChars u1 = stableStringifyChars u2 :=
        stringify_peel (jsFieldsSize (JsFields.ofList bs)) u1 u2 hbd a1 a2 hfa1 hfa2 h3
      rw [hk, hu]
    have hheadF1 : ∀ p : List Char,
        (∃ (k : String) (u : Js), p = jsonQuote k ++ ':' :: stableStringifyChars u ∧
          jsSize u ≤ jsFieldsSize (JsFields.ofList bs)) →
        ∃ c t, p = c :: t ∧ isTermChar c = false := by
      rintro p ⟨k, u, rfl, _⟩
      exact ⟨'"', (escChars k.data ++ ['"']) ++ ':' :: stableStringifyChars u, rfl, rfl⟩
    have hheadF2 : ∀ q : List Char,
        (∃ (k : String) (u : Js), q = jsonQuote k ++ ':' :: stableStringifyChars u) →
        ∃ c t, q = c :: t ∧ isTermChar c = false := by
      rintro q ⟨k, u, rfl⟩
      exact ⟨'"', (escChars k.data ++ ['"']) ++ ':' :: stableStringifyChars u, rfl, rfl⟩
    have hm1 : ∀ p ∈ (sortByKey Prod.fst
          (stableStringifyFields (JsFields.ofList bs))).map Prod.snd,
        ∃ (k : String) (u : Js), p = jsonQuote k ++ ':' :: stableStringifyChars u ∧
          jsSize u ≤ jsFieldsSize (JsFields.ofList bs) := by
      intro p hp
      rcases List.mem_map.mp hp with ⟨pr, hpr, rfl⟩
      have hpr2 : pr ∈ stableStringifyFields (JsFields.ofList bs) :=
        (perm_sortByKey Prod.fst _).mem_iff.mp hpr
      obtain ⟨k, u, he, hbd⟩ := mem_stringifyFields _ pr hpr2
      exact ⟨k, u, by rw [he], hbd⟩
    have hm2 : ∀ q ∈ (sortByKey Prod.fst
          (stableStringifyFields (JsFields.ofList cs))).map Prod.snd,
        ∃ (k : String) (u : Js), q = jsonQuote k ++ ':' :: stableStringifyChars u := by
      intro q hq
      rcases List.mem_map.mp hq with ⟨pr, hpr, rfl⟩
      have hpr2 : pr ∈ stableStringifyFields (JsFields.ofList cs) :=
        (perm_sortByKey Prod.fst _).mem_iff.mp hpr
      obtain ⟨k, u, he, _⟩ := mem_stringifyFields _ pr hpr2
      exact ⟨k, u, by rw [he]⟩
    obtain ⟨hM, _⟩ := joinC_peel _ _ hpeelF hheadF1 hheadF2 _ _ hm1 hm2
      '}' '}' [] [] rfl rfl hJ
    have hSS : sortByKey Prod.fst (stableStringifyFields (JsFields.ofList bs))
        = sortByKey Prod.fst (stableStringifyFields (JsFields.ofList cs)) := by
      refine pairs_eq_of_snd_eq _ _ ?_ ?_ hM
      · intro p hp
        have hp2 : p ∈ stableStringifyFields (JsFields.ofList bs) :=
          (perm_sortByKey Prod.fst _).mem_iff.mp hp
        obtain ⟨k, u, he, _⟩ := mem_stringifyFields _ p hp2
        exact ⟨u, by rw [he]⟩
      · intro p hp
        have hp2 : p ∈ stableStringifyFields (JsFields.ofList cs) :=
          (perm_sortByKey Prod.fst _).mem_iff.mp hp
        obtain ⟨k, u, he, _⟩ := mem_stringifyFields _ p hp2
        exact ⟨u, by rw [he]⟩
    rw [hSF1, hSF2] at hSS
    have hmemRF : ∀ x, x ∈ bs.map renderField ↔ x ∈ cs.map renderField := by
      intro x
      rw [← (perm_sortByKey Prod.fst (bs.map renderField)).mem_iff,
        ← (perm_sortByKey Prod.fst (cs.map renderField)).mem_iff, hSS]
    intro k
    cases hlb : jlookup k bs with
    | some v =>
      have hvm : (k, v) ∈ bs := (jlookup_eq_some_iff k v bs hbn).mp hlb
      have hx : renderField (k, v) ∈ cs.map renderField :=
        (hmemRF (renderField (k, v))).mp (List.mem_map_of_mem renderField hvm)
      rcases List.mem_map.mp hx with ⟨pr, hpr, heq⟩
      obtain ⟨k2, w⟩ := pr
      have hk2 : k2 = k := congrArg Prod.fst heq
      have hsnd : jsonQuote k2 ++ ':' :: stableStringifyChars w
          = jsonQuote k ++ ':' :: stableStringifyChars v := congrArg Prod.snd heq
      rw [hk2] at hsnd hpr
      have hench : ':' :: stableStringifyChars w = ':' :: stableStringifyChars v :=
        List.append_cancel_left hsnd
      injection hench with _ henc
      have hlc : jlookup k cs = some w := (jlookup_eq_some_iff k w cs hcn).mpr hpr
      rw [hlc]
      show some (stableStringify v) = some (stableStringify w)
      rw [stableStringify, stableStringify, henc]
    | none =>
      have hknb : k ∉ bs.map Prod.fst := (jlookup_eq_none_iff k bs).mp hlb
      have hlc : jlookup k cs = none := by
        cases hlc2 : jlookup k cs with
        | none => rfl
        | some w =>
          exfalso
          have hwm : (k, w) ∈ cs := (jlookup_eq_some_iff k w cs hcn).mp hlc2
          have hx : renderField (k, w) ∈ bs.map renderField :=
            (hmemRF (renderField (k, w))).mpr (List.mem_map_of_mem renderField hwm)
          rcases List.mem_map.mp hx with ⟨pr, hpr, heq⟩
          obtain ⟨k2, v⟩ := pr
          have hk2 : k2 = k := congrArg Prod.fst heq
          rw [hk2] at hpr
          exact hknb (List.mem_map_of_mem Prod.fst hpr)
      rw [hlc]
  · intro hpt
    have hmemRF : ∀ x, x ∈ bs.map renderField ↔ x ∈ cs.map renderField := by
      intro x
      constructor
      · intro hx
        rcases List.mem_map.mp hx with ⟨pr, hpr, rfl⟩
        obtain ⟨k, v⟩ := pr
        have hlb : jlookup k bs = some v := (jlookup_eq_some_iff k v bs hbn).mpr hpr
        obtain ⟨w, hlc, hws⟩ := optStringify_some_eq _ _ v hlb (hpt k)
        have hwm : (k, w) ∈ cs := (jlookup_eq_some_iff k w cs hcn).mp hlc
        have henc : stableStringifyChars w = stableStringifyChars v :=
          asString_inj _ _ hws
        have hrf : renderField (k, v) = renderField (k, w) := by
          rw [renderField, renderField]
          simp only [Prod.mk.injEq, true_and]
          rw [henc]
        rw [hrf]
        exact List.mem_map_of_mem renderField hwm
      · intro hx
        rcases List.mem_map.mp hx with ⟨pr, hpr, rfl⟩
        obtain ⟨k, w⟩ := pr
        have hlc : jlookup k cs = some w := (jlookup_eq_some_iff k w cs hcn).mpr hpr
        obtain ⟨v, hlb, hvs⟩ := optStringify_some_eq _ _ w hlc (hpt k).symm
        have hvm : (k, v) ∈ bs := (jlookup_eq_some_iff k v bs hbn).mp hlb
        have henc : stableStringifyChars v = stableStringifyChars w :=
          asString_inj _ _ hvs
        have hrf : renderField (k, w) = renderField (k, v) := by
          rw [renderField, renderField]
          simp only [Prod.mk.injEq, true_and]
          rw [henc]
        rw [hrf]
        exact List.mem_map_of_mem renderField hvm
    have hSS : sortByKey Prod.fst (bs.map renderField)
        = sortByKey Prod.fst (cs.map renderField) := by
      refine sorted_nodup_eq Prod.fst _ _ (sorted_sortByKey _ _) (sorted_sortByKey _ _)
        ?_ ?_ ?_
      · refine nodup_keys_sortByKey Prod.fst _ ?_
        rw [renderField_fst]
        exact hbn
      · refine nodup_keys_sortByKey Prod.fst _ ?_
        rw [renderField_fst]
        exact hcn
      · intro x
        rw [(perm_sortByKey Prod.fst (bs.map renderField)).mem_iff,
          (perm_sortByKey Prod.fst (cs.map renderField)).mem_iff]
        exact hmemRF x
    show (stableStringifyChars (Js.objL bs)).asString
      = (stableStringifyChars (Js.objL cs)).asString
    rw [stringify_objL, stringify_objL, hSS]

theorem diffContent_objL (bs cs : List (String × Js)) :
    diffContent (Js.objL bs) (Js.objL cs)
      = (unionKeys bs cs).filterMap (fun k =>
          if optStringify (jlookup k bs) ≠ optStringify (jlookup k cs) then
            some (k, jlookup k cs)
          else none) := by
  rw [diffContent, asFields_objL, asFields_objL]

/-- C8 counterexample: with baseline null (no document yet) and an empty
current object, diffContent is empty — so saveContent sends nothing —
although isDirty is true ("null" versus "{}"): "the patch is empty iff
isDirty is false" fails for non-object baselines. -/
theorem c8_diff_isDirty_counterexample :
    diffContent Js.null (Js.objL []) = [] ∧
    saveContent Js.null (Js.objL []) = none ∧
    isDirty Js.null (Js.objL []) = true := by
  decide

/-- C8 (amended): for object baseline and current with distinct
top-level keys, diffContent contains exactly the pairs (k, current[k])
for the keys at which the stable stringifications of the two values
differ (a missing property stringifies as undefined, never equal to a
present one); saveContent sends exactly this patch and sends nothing
when it is empty; and the patch is empty if and only if isDirty is
false. (For non-object baselines the equivalence with isDirty fails,
e.g. baseline null vs current {}.) -/
theorem c8_diff_patch (b c : Js) (bs cs : List (String × Js))
    (hb : b = Js.objL bs) (hc : c = Js.objL cs)
    (hbn : (bs.map Prod.fst).Nodup) (hcn : (cs.map Prod.fst).Nodup) :
    (∀ (k : String) (ov : Option Js), (k, ov) ∈ diffContent b c →
        optStringify (jlookup k bs) ≠ optStringify (jlookup k cs) ∧ ov = jlookup k cs) ∧
    (∀ k : String, optStringify (jlookup k bs) ≠ optStringify (jlookup k cs) →
        (k, jlookup k cs) ∈ diffContent b c) ∧
    (diffContent b c = [] → saveContent b c = none) ∧
    (diffContent b c ≠ [] → saveContent b c = some (diffContent b c)) ∧
    (diffContent b c = [] ↔ isDirty b c = false) := by
  subst hb hc
  rw [diffContent_objL]
  refine ⟨?_, ?_, ?_, ?_, ?_⟩
  · intro k ov hmem
    rcases List.mem_filterMap.mp hmem with ⟨k2, hk2, heq⟩
    by_cases hcond : optStringify (jlookup k2 bs) ≠ optStringify (jlookup k2 cs)
    · rw [if_pos hcond] at heq
      injection heq with heq2
      have hkk : k2 = k := congrArg Prod.fst heq2
      have hvv : jlookup k2 cs = ov := congrArg Prod.snd heq2
      subst hkk
      exact ⟨hcond, hvv.symm⟩
    · rw [if_neg hcond] at heq
      cases heq
  · intro k hne
    refine List.mem_filterMap.mpr ⟨k, ?_, if_pos hne⟩
    rw [mem_unionKeys]
    by_cases hkb : k ∈ bs.map Prod.fst
    · exact Or.inl hkb
    · by_cases hkc : k ∈ cs.map Prod.fst
      · exact Or.inr hkc
      · exfalso
        rw [(jlookup_eq_none_iff k bs).mpr hkb, (jlookup_eq_none_iff k cs).mpr hkc] at hne
        exact hne rfl
  · intro hempty
    rw [saveContent, diffContent_objL, hempty]
    rfl
  · intro hne
    rw [saveContent, diffContent_objL]
    cases hd : (unionKeys bs cs).filterMap (fun k =>
        if optStringify (jlookup k bs) ≠ optStringify (jlookup k cs) then
          some (k, jlookup k cs)
        else none) with
    | nil => exact absurd hd hne
    | cons p t => rfl
  · constructor
    · intro hempty
      have hpt : ∀ k : String, optStringify (jlookup k bs) = optStringify (jlookup k cs) := by
        intro k
        by_contra hne
        have hmem : (k, jlookup k cs) ∈ (unionKeys bs cs).filterMap (fun k =>
            if optStringify (jlookup k bs) ≠ optStringify (jlookup k cs) then
              some (k, jlookup k cs)
            else none) := by
          refine List.mem_filterMap.mpr ⟨k, ?_, if_pos hne⟩
          rw [mem_unionKeys]
          by_cases hkb : k ∈ bs.map Prod.fst
          · exact Or.inl hkb
          · by_cases hkc : k ∈ cs.map Prod.fst
            · exact Or.inr hkc
            · exfalso
              rw [(jlookup_eq_none_iff k bs).mpr hkb,
                (jlookup_eq_none_iff k cs).mpr hkc] at hne
              exact hne rfl
        rw [hempty] at hmem
        cases hmem
      have hs := (stableStringify_objL_eq_iff bs cs hbn hcn).mpr hpt
      rw [isDirty, hs]
      simp
    · intro hdirty
      have hs : stableStringify (Js.objL bs) = stableStringify (Js.objL cs) := by
        rw [isDirty] at hdirty
        simpa using hdirty
      have hpt := (stableStringify_objL_eq_iff bs cs hbn hcn).mp hs
      rw [List.filterMap_eq_nil_iff]
      intro k hk
      rw [if_neg (fun hne => hne (hpt k))]

theorem c8_diff_patch_witness :
    (([("a", Js.str "x")] : List (String × Js)).map Prod.fst).Nodup ∧
    (diffContent (Js.objL [("a", Js.str "x")]) (Js.objL [("a", Js.str "y")]) = []
      ↔ isDirty (Js.objL [("a", Js.str "x")]) (Js.objL [("a", Js.str "y")]) = false) :=
  ⟨by decide,
   (c8_diff_patch (Js.objL [("a", Js.str "x")]) (Js.objL [("a", Js.str "y")])
      [("a", Js.str "x")] [("a", Js.str "y")] rfl rfl (by decide) (by decide)).2.2.2.2⟩
